import Mathlib

/-!
Shallow embedding of the transaction-validation core of the iota.go repository
(stardust virtual machine, account/foundry state-transition validation functions,
transaction builder unlock assignment, and work-score arithmetic), together with
theorems settling the specification claims about it.

Machine integers are embedded as `Nat` with explicit `% 2 ^ w` wrapping where the
Go code can overflow or underflow (uint32 for state indices and work scores,
uint64 for mana).  Fallible Go functions returning `error` are embedded as values
of an explicit result type; a Go nil-pointer dereference is embedded as the
distinguished result `crash`.
-/

namespace IotaGo

/-- Modulus of the Go uint64 type (mana values). -/
def U64 : Nat := 2 ^ 64

/-- Modulus of the Go uint32 type (state index, foundry counter, work score). -/
def U32 : Nat := 2 ^ 32

/-- Wrapping uint64 addition, as Go `+` on `uint64`. -/
def wadd64 (a b : Nat) : Nat := (a % U64 + b % U64) % U64

/-- Wrapping uint64 subtraction, as Go `-` on `uint64`. -/
def wsub64 (a b : Nat) : Nat := (a % U64 + (U64 - b % U64)) % U64

/-- BlockIssuerFeature of an account output; only the expiry slot is consulted
by the state-transition validation functions under test. -/
structure BlockIssuerFeature where
  expirySlot : Nat
deriving DecidableEq, Repr

/-- AccountOutput: the fields of the Go struct read by the account STVFs.
State controller and governor addresses come from the unlock conditions in Go
(`StateController()` / `GovernorAddress()`); they are embedded as direct fields
compared for equality.  The mutable metadata feature and the block issuer
feature are the two members of the feature set the STVFs consult; the immutable
feature set is only ever compared for equality and is embedded as raw data. -/
structure AccountOutput where
  amount : Nat
  mana : Nat
  nativeTokens : List (Nat × Nat)
  accountID : Nat
  stateController : Nat
  governor : Nat
  stateIndex : Nat
  stateMetadata : List Nat
  foundryCounter : Nat
  metadataFeat : Option (List Nat)
  blockIssuerFeat : Option BlockIssuerFeature
  immutableFeatures : List (Nat × List Nat)
deriving DecidableEq, Repr

/-- Transaction-essence output as seen by the working set: the STVFs only need
each output's variant tag, amount, stored mana, anchoring data for foundries and
the manalock data of basic and NFT outputs.  The `manalock` field of basic and
NFT outputs carries the (account, timelock-slot) pair of a combined
address+timelock unlock condition, when present. -/
inductive WsOutput where
  | basic (amount mana : Nat) (manalock : Option (Nat × Nat))
  | nft (amount mana : Nat) (manalock : Option (Nat × Nat))
  | accountOut (a : AccountOutput)
  | foundry (ident fid serial amount mana : Nat)
  | other (amount mana : Nat)
deriving DecidableEq, Repr

/-- Stored mana of a working-set output (`Output.StoredMana()`). -/
def WsOutput.storedMana : WsOutput → Nat
  | .basic _ m _ => m
  | .nft _ m _ => m
  | .accountOut a => a.mana
  | .foundry _ _ _ _ m => m
  | .other _ m => m

/-- Deposit (base-token amount) of a working-set output (`Output.Deposit()`). -/
def WsOutput.deposit : WsOutput → Nat
  | .basic a _ _ => a
  | .nft a _ _ => a
  | .accountOut a => a.amount
  | .foundry _ _ _ a _ => a
  | .other a _ => a

/-- ChainOutputWithCreationTime for an account input: the resolved account
output together with the creation time of the consumed UTXO. -/
structure ChainOutputWithCreationTime where
  output : AccountOutput
  creationTime : Nat
deriving DecidableEq, Repr

/-- ProtocolParameters: the single field the STVFs consult. -/
structure ProtocolParameters where
  livenessThreshold : Nat
deriving DecidableEq, Repr

/-- ManaDecayProvider: `StoredManaWithDecay value from to` and
`PotentialManaWithDecay amount from to`, kept abstract (the decay tables live
outside the validation core); applications are reduced mod `U64` since the Go
functions return `uint64`. -/
structure ManaDecayProvider where
  storedManaWithDecay : Nat → Nat → Nat → Nat
  potentialManaWithDecay : Nat → Nat → Nat → Nat

/-- Working set of one validation run, restricted to the data the embedded
functions read: transaction creation time, essence outputs, allotments,
block-issuer-credit snapshot, the chain ids present on the input side, and the
resolved inputs paired with their creation times. -/
structure WorkingSet where
  txCreationTime : Nat
  outputs : List WsOutput
  allotments : List (Nat × Nat)
  bic : List (Nat × Int)
  inChains : List Nat
  utxoInputsWithCreationTime : List (WsOutput × Nat)

/-- Params handed to every STVF: the working set plus external protocol
parameters and the mana decay provider. -/
structure Params where
  workingSet : WorkingSet
  protocolParameters : ProtocolParameters
  decay : ManaDecayProvider

/-- Errors produced by the embedded validation functions, one constructor per
`return fmt.Errorf(...)` site that the claims distinguish. -/
inductive VmError where
  | immutableFeaturesChanged
  | amountChangedGov
  | nativeTokensChangedGov
  | stateIndexChangedGov
  | stateMetadataChangedGov
  | foundryCounterChangedGov
  | stateControllerChanged
  | governorChanged
  | foundryCounterDecreased
  | stateIndexNotIncremented
  | metadataFeatureChanged
  | foundryCountMismatch
  | negativeBIC
  | noBICProvided
  | cannotRemoveBlockIssuer
  | expiryTooSoon
  | manaMovedOffAccount
  | cannotDestroyBeforeExpiry
  | serialOutOfInterval
  | serialNotIncreasing
deriving DecidableEq, Repr

/-- Result of an embedded validation function: success, a returned error, or a
Go runtime panic (nil-pointer dereference). -/
inductive VmResult where
  | ok
  | err (e : VmError)
  | crash
deriving DecidableEq, Repr

/-- Errors wrapped around `iotago.ErrInvalidAccountStateTransition` or
`iotago.ErrInvalidAccountGovernanceTransition`, i.e. the invalid-chain-transition
family for accounts. -/
def VmError.isInvalidAccountTransition : VmError → Bool
  | .immutableFeaturesChanged => true
  | .amountChangedGov => true
  | .nativeTokensChangedGov => true
  | .stateIndexChangedGov => true
  | .stateMetadataChangedGov => true
  | .foundryCounterChangedGov => true
  | .stateControllerChanged => true
  | .governorChanged => true
  | .foundryCounterDecreased => true
  | .stateIndexNotIncremented => true
  | .metadataFeatureChanged => true
  | .foundryCountMismatch => true
  | _ => false

/-- Errors wrapped around `iotago.ErrInvalidBlockIssuerTransition`. -/
def VmError.isInvalidBlockIssuerTransition : VmError → Bool
  | .negativeBIC => true
  | .noBICProvided => true
  | .cannotRemoveBlockIssuer => true
  | .expiryTooSoon => true
  | .manaMovedOffAccount => true
  | .cannotDestroyBeforeExpiry => true
  | _ => false

/-- Association-list lookup standing for a Go map read (`v, ok := m[k]`). -/
def lookupAssoc {α : Type} : List (Nat × α) → Nat → Option α
  | [], _ => none
  | (k, v) :: rest, key => if k = key then some v else lookupAssoc rest key

/-- Modelled from the spec: `Allotments.Get(accountID)` is not under src/; per
the essence data model it yields the mana allotted to that account, zero when
the account has no allotment. -/
def allotmentsGet (allotments : List (Nat × Nat)) (accountID : Nat) : Nat :=
  (lookupAssoc allotments accountID).getD 0

/-- Modelled from the spec: `UnlockConditionSet.HasManalockCondition(acct, slot)`
is not under src/; per §4.4 an output is mana-locked to the account when it is
address-locked to the account's address and time-locked until at least the given
slot. -/
def hasManalockCondition (manalock : Option (Nat × Nat)) (acct slot : Nat) : Bool :=
  match manalock with
  | some (a, tl) => a = acct && slot ≤ tl
  | none => false

/-- Modelled from the spec: `vm.TotalManaIn` is not under src/; per §4.3 it is
the sum over all resolved inputs of the stored mana decayed to the transaction's
creation slot plus the potential mana generated by the input's amount, in
uint64 arithmetic. -/
def totalManaIn (d : ManaDecayProvider) (txCreationTime : Nat)
    (inputs : List (WsOutput × Nat)) : Nat :=
  inputs.foldl
    (fun acc p =>
      wadd64 (wadd64 acc (d.storedManaWithDecay p.1.storedMana p.2 txCreationTime))
        (d.potentialManaWithDecay p.1.deposit p.2 txCreationTime))
    0

/-- Modelled from the spec: `vm.TotalManaOut` is not under src/; per §4.3 it is
the sum of the outputs' stored mana plus the sum of all allotments, in uint64
arithmetic. -/
def totalManaOut (outputs : List WsOutput) (allotments : List (Nat × Nat)) : Nat :=
  wadd64 (outputs.foldl (fun acc o => wadd64 acc o.storedMana) 0)
    (allotments.foldl (fun acc p => wadd64 acc p.2) 0)

/-- Mana subtracted for mana-locked basic outputs: the loop over
`OutputsByType[iotago.OutputBasic]` in accountBlockIssuerSTVF, one recursive
step per output. -/
def subtractManalockedBasic : List WsOutput → Nat → Nat → Nat → Nat
  | [], _, _, manaOut => manaOut
  | .basic _ m ml :: rest, acct, slot, manaOut =>
    subtractManalockedBasic rest acct slot
      (if hasManalockCondition ml acct slot then wsub64 manaOut m else manaOut)
  | _ :: rest, acct, slot, manaOut => subtractManalockedBasic rest acct slot manaOut

/-- Mana subtracted for mana-locked NFT outputs: the loop over
`OutputsByType[iotago.OutputNFT]` in accountBlockIssuerSTVF. -/
def subtractManalockedNFT : List WsOutput → Nat → Nat → Nat → Nat
  | [], _, _, manaOut => manaOut
  | .nft _ m ml :: rest, acct, slot, manaOut =>
    subtractManalockedNFT rest acct slot
      (if hasManalockCondition ml acct slot then wsub64 manaOut m else manaOut)
  | _ :: rest, acct, slot, manaOut => subtractManalockedNFT rest acct slot manaOut

/-- Mana accounting section of accountBlockIssuerSTVF (lines 274-313 of
tpkg/test_consts.go): total mana in and out, minus the account's own input-side
stored and potential mana, minus the account-directed stored mana, allotment and
mana-locked outputs; fails when the remaining input mana exceeds the remaining
output mana. -/
def blockIssuerManaCheck (input : ChainOutputWithCreationTime)
    (next : AccountOutput) (vmParams : Params) : VmResult :=
  let current := input.output
  let txSlotIndex := vmParams.workingSet.txCreationTime
  let manaIn0 := totalManaIn vmParams.decay txSlotIndex
    vmParams.workingSet.utxoInputsWithCreationTime
  let manaOut0 := totalManaOut vmParams.workingSet.outputs vmParams.workingSet.allotments
  let manaIn1 := wsub64 manaIn0
    (vmParams.decay.storedManaWithDecay current.mana input.creationTime txSlotIndex)
  let manaIn2 := wsub64 manaIn1
    (vmParams.decay.potentialManaWithDecay current.amount input.creationTime txSlotIndex)
  let manaOut1 := wsub64 manaOut0 next.mana
  let manaOut2 := wsub64 manaOut1
    (allotmentsGet vmParams.workingSet.allotments current.accountID)
  let lockSlot := txSlotIndex + vmParams.protocolParameters.livenessThreshold
  let manaOut3 := subtractManalockedBasic vmParams.workingSet.outputs current.accountID
    lockSlot manaOut2
  let manaOut4 := subtractManalockedNFT vmParams.workingSet.outputs current.accountID
    lockSlot manaOut3
  if manaOut4 < manaIn2 then .err .manaMovedOffAccount else .ok

/-- Expiry-slot section of accountBlockIssuerSTVF (lines 257-272): dereferences
the current feature pointer, so a missing input-side feature is a crash. -/
def blockIssuerExpiryCheck (input : ChainOutputWithCreationTime)
    (next : AccountOutput) (vmParams : Params) : VmResult :=
  let txSlotIndex := vmParams.workingSet.txCreationTime
  let liveness := vmParams.protocolParameters.livenessThreshold
  match input.output.blockIssuerFeat with
  | none => .crash
  | some cf =>
    if txSlotIndex ≤ cf.expirySlot then
      match next.blockIssuerFeat with
      | none => .err .cannotRemoveBlockIssuer
      | some nf =>
        if nf.expirySlot ≠ 0 ∧ nf.expirySlot ≠ cf.expirySlot ∧
            nf.expirySlot < txSlotIndex + liveness then
          .err .expiryTooSoon
        else
          blockIssuerManaCheck input next vmParams
    else
      match next.blockIssuerFeat with
      | some nf =>
        if nf.expirySlot ≠ 0 ∧ nf.expirySlot < txSlotIndex + liveness then
          .err .expiryTooSoon
        else
          blockIssuerManaCheck input next vmParams
      | none => blockIssuerManaCheck input next vmParams

/-- accountBlockIssuerSTVF (tpkg/test_consts.go lines 239-316): no-op when no
block issuer feature exists on either side; otherwise the BIC must be present
and non-negative, then the expiry rules and the mana accounting apply. -/
def accountBlockIssuerSTVF (input : ChainOutputWithCreationTime)
    (next : AccountOutput) (vmParams : Params) : VmResult :=
  let current := input.output
  if current.blockIssuerFeat = none ∧ next.blockIssuerFeat = none then .ok
  else
    match lookupAssoc vmParams.workingSet.bic current.accountID with
    | some bic =>
      if bic < 0 then .err .negativeBIC
      else blockIssuerExpiryCheck input next vmParams
    | none => .err .noBICProvided

/-- accountGovernanceSTVF (lines 171-185): amount, native tokens, state index,
state metadata and foundry counter must all be unchanged. -/
def accountGovernanceSTVF (current next : AccountOutput) : VmResult :=
  if current.amount ≠ next.amount then .err .amountChangedGov
  else if current.nativeTokens ≠ next.nativeTokens then .err .nativeTokensChangedGov
  else if current.stateIndex ≠ next.stateIndex then .err .stateIndexChangedGov
  else if current.stateMetadata ≠ next.stateMetadata then .err .stateMetadataChangedGov
  else if current.foundryCounter ≠ next.foundryCounter then .err .foundryCounterChangedGov
  else .ok

/-- FeatureUnchanged (feat.go lines 322-342) specialised to the metadata
feature: presence must match on both sides and, when present, the features must
be equal. -/
def metadataFeatureUnchanged (inFeat outFeat : Option (List Nat)) : Bool :=
  match inFeat, outFeat with
  | none, some _ => false
  | some _, none => false
  | none, none => true
  | some a, some b => a = b

/-- Count of new foundry outputs anchored to the given account: the loop of
accountStateSTVF over the essence outputs (lines 209-225), skipping non-foundry
outputs, foundries already present in `InChains`, and foundries anchored to a
different account. -/
def seenNewFoundriesOfAccount (outputs : List WsOutput) (inChains : List Nat)
    (accountID : Nat) : Nat :=
  outputs.foldl
    (fun acc o =>
      match o with
      | .foundry ident fid _ _ _ =>
        if fid ∈ inChains then acc
        else if ident = accountID then acc + 1
        else acc
      | _ => acc)
    0

/-- accountStateSTVF (lines 187-233): state controller and governor frozen,
foundry counter non-decreasing, state index bumped by exactly one (uint32
arithmetic), metadata feature unchanged, a foundry-counter increase matched by
exactly that many new anchored foundries, then the block-issuer rules. -/
def accountStateSTVF (input : ChainOutputWithCreationTime)
    (next : AccountOutput) (vmParams : Params) : VmResult :=
  let current := input.output
  if current.stateController ≠ next.stateController then .err .stateControllerChanged
  else if current.governor ≠ next.governor then .err .governorChanged
  else if next.foundryCounter < current.foundryCounter then .err .foundryCounterDecreased
  else if (current.stateIndex + 1) % U32 ≠ next.stateIndex then .err .stateIndexNotIncremented
  else if ¬ metadataFeatureUnchanged current.metadataFeat next.metadataFeat then
    .err .metadataFeatureChanged
  else if current.foundryCounter = next.foundryCounter then
    accountBlockIssuerSTVF input next vmParams
  else if next.foundryCounter - current.foundryCounter ≠
      seenNewFoundriesOfAccount vmParams.workingSet.outputs
        vmParams.workingSet.inChains next.accountID then
    .err .foundryCountMismatch
  else
    accountBlockIssuerSTVF input next vmParams

/-- accountStateChangeValid (lines 158-169): immutable features must be equal,
then dispatch on whether the state index changed. -/
def accountStateChangeValid (input : ChainOutputWithCreationTime)
    (vmParams : Params) (next : AccountOutput) : VmResult :=
  let current := input.output
  if current.immutableFeatures ≠ next.immutableFeatures then .err .immutableFeaturesChanged
  else if current.stateIndex = next.stateIndex then accountGovernanceSTVF current next
  else accountStateSTVF input next vmParams

/-- accountDestructionValid (lines 318-337): with a block issuer feature the
expiry must be non-zero and strictly before the transaction's creation slot,
then the BIC must be present and non-negative. -/
def accountDestructionValid (input : ChainOutputWithCreationTime)
    (vmParams : Params) : VmResult :=
  let outputToDestroy := input.output
  match outputToDestroy.blockIssuerFeat with
  | none => .ok
  | some f =>
    if f.expirySlot = 0 ∨ vmParams.workingSet.txCreationTime ≤ f.expirySlot then
      .err .cannotDestroyBeforeExpiry
    else
      match lookupAssoc vmParams.workingSet.bic outputToDestroy.accountID with
      | some bic => if bic < 0 then .err .negativeBIC else .ok
      | none => .err .noBICProvided

/-- Serial-number ordering loop of foundrySerialNumberValid (lines 436-463):
walk the essence outputs; skip non-foundries, foundries of another account and
foundries that are not new; stop at this foundry itself; any earlier new foundry
of the same account with a serial number at least as large is an error. -/
def foundrySerialOrderLoop (currentIdent currentSerial thisFoundryID : Nat)
    (inChains : List Nat) : List WsOutput → VmResult
  | [] => .ok
  | .foundry ident fid serial _ _ :: rest =>
    if ident ≠ currentIdent then
      foundrySerialOrderLoop currentIdent currentSerial thisFoundryID inChains rest
    else if fid ∈ inChains then
      foundrySerialOrderLoop currentIdent currentSerial thisFoundryID inChains rest
    else if fid = thisFoundryID then .ok
    else if currentSerial ≤ serial then .err .serialNotIncreasing
    else foundrySerialOrderLoop currentIdent currentSerial thisFoundryID inChains rest
  | _ :: rest =>
    foundrySerialOrderLoop currentIdent currentSerial thisFoundryID inChains rest

/-- foundrySerialNumberValid (lines 426-466): the new foundry's serial number is
checked against the anchoring account's input-side and output-side foundry
counters (`startSerial >= serial || serial > endIncSerial` is an error), then
against the serial numbers of the earlier new foundries of the same account. -/
def foundrySerialNumberValid (currentIdent currentSerial : Nat) (vmParams : Params)
    (inAccount outAccount : AccountOutput) (thisFoundryID : Nat) : VmResult :=
  let startSerial := inAccount.foundryCounter
  let endIncSerial := outAccount.foundryCounter
  if currentSerial ≤ startSerial ∨ endIncSerial < currentSerial then
    .err .serialOutOfInterval
  else
    foundrySerialOrderLoop currentIdent currentSerial thisFoundryID
      vmParams.workingSet.inChains vmParams.workingSet.outputs

/-! Transaction builder (builder/transaction_builder.go): unlock assignment. -/

/-- Addresses as the builder distinguishes them: plain Ed25519 addresses and
the two chain-address kinds (`iotago.AccountAddress`, `iotago.NFTAddress`).
`Key()` is injective on addresses, so the address itself serves as its map key. -/
inductive Address where
  | ed25519 (k : Nat)
  | accountAddr (id : Nat)
  | nftAddr (id : Nat)
deriving DecidableEq, Repr

/-- Whether the address is an `iotago.ChainAddress`. -/
def Address.isChain : Address → Bool
  | .ed25519 _ => false
  | .accountAddr _ => true
  | .nftAddr _ => true

/-- Chain identifier of a consumed chain output (`ChainOutput.Chain()`):
account and NFT ids are addressable, foundry ids are not. -/
inductive ChainId where
  | accountC (id : Nat)
  | nftC (id : Nat)
  | foundryC (id : Nat)
deriving DecidableEq, Repr

/-- Addressable chain address of a chain id (`Chain().Addressable()` and
`Chain().ToAddress()`); `none` for foundries. -/
def ChainId.toUnlockAddress : ChainId → Option Address
  | .accountC id => some (.accountAddr id)
  | .nftC id => some (.nftAddr id)
  | .foundryC _ => none

/-- TxInput as the unlock-assignment loop reads it: the address that must be
unlocked to spend the input, and the chain identity of the consumed output when
it is a chain output. -/
structure TxInput where
  unlockTarget : Address
  chain : Option ChainId
deriving DecidableEq, Repr

/-- Unlocks produced by the builder. Referential unlocks store the uint16
reference produced by `uint16(pos)`. -/
inductive Unlock where
  | signature (sig : Nat)
  | reference (pos : Nat)
  | accountRef (pos : Nat)
  | nftRef (pos : Nat)
deriving DecidableEq, Repr

/-- Errors of the embedded Build. -/
inductive BuildErr where
  | priorBuildErr
  | missingProtocolParameters
  | missingSigner
  | chainNotUnlocked (inputIndex : Nat)
  | signFailed
deriving DecidableEq, Repr

/-- Overwriting insert into the position map, as Go map assignment. -/
def setPos (m : List (Address × Nat)) (a : Address) (i : Nat) : List (Address × Nat) :=
  match m with
  | [] => [(a, i)]
  | (k, v) :: rest => if k = a then (a, i) :: rest else (k, v) :: setPos rest a i

/-- Position-map lookup (`pos, unlocked := unlockPos[addrKey]`). -/
def getPos : List (Address × Nat) → Address → Option Nat
  | [], _ => none
  | (k, v) :: rest, a => if k = a then some v else getPos rest a

/-- addReferentialUnlock (transaction_builder.go lines 177-186): the unlock kind
follows the address kind; the reference is `uint16(pos)`. -/
def addReferentialUnlock (addr : Address) (pos : Nat) : Unlock :=
  match addr with
  | .accountAddr _ => .accountRef (pos % 2 ^ 16)
  | .nftAddr _ => .nftRef (pos % 2 ^ 16)
  | .ed25519 _ => .reference (pos % 2 ^ 16)

/-- addChainAsUnlocked (lines 188-192): when the consumed output is a chain
output with an addressable chain, record the current position under that chain's
address key. -/
def addChainAsUnlocked (chain : Option ChainId) (posUnlocked : Nat)
    (prevUnlocked : List (Address × Nat)) : List (Address × Nat) :=
  match chain with
  | some c =>
    match c.toUnlockAddress with
    | some a => setPos prevUnlocked a posUnlocked
    | none => prevUnlocked
  | none => prevUnlocked

/-- Unlock-assignment loop of Build (lines 142-170), one recursive step per
essence input: an address already in the position map gets a referential unlock;
a fresh chain address is an error; a fresh plain address is signed and recorded.
In both non-error branches the consumed output's chain identity is then marked
unlocked at the current position. -/
def buildUnlocksGo (signer : Address → Option Nat) :
    List TxInput → Nat → List (Address × Nat) → Except BuildErr (List Unlock)
  | [], _, _ => .ok []
  | inp :: rest, i, unlockPos =>
    match getPos unlockPos inp.unlockTarget with
    | some pos =>
      match buildUnlocksGo signer rest (i + 1) (addChainAsUnlocked inp.chain i unlockPos) with
      | .ok us => .ok (addReferentialUnlock inp.unlockTarget pos :: us)
      | .error e => .error e
    | none =>
      if inp.unlockTarget.isChain then .error (.chainNotUnlocked i)
      else
        match signer inp.unlockTarget with
        | none => .error .signFailed
        | some sig =>
          match buildUnlocksGo signer rest (i + 1)
              (setPos (addChainAsUnlocked inp.chain i unlockPos) inp.unlockTarget i) with
          | .ok us => .ok (Unlock.signature sig :: us)
          | .error e => .error e

/-- Build (lines 114-175) restricted to the data the unlock claims concern: the
guard chain at the top (prior build error, missing protocol parameters, missing
signer), then the unlock-assignment loop over the essence inputs in order.  The
inputs commitment and the signing message are computed by the external
serialization collaborator and do not affect which unlocks are produced. -/
def build (priorErr : Option BuildErr) (hasProtoParams hasSigner : Bool)
    (signer : Address → Option Nat) (inputs : List TxInput) :
    Except BuildErr (List Unlock) :=
  match priorErr with
  | some e => .error e
  | none =>
    if hasProtoParams = false then .error .missingProtocolParameters
    else if hasSigner = false then .error .missingSigner
    else buildUnlocksGo signer inputs 0 []

/-! Work scores (src/unnamed/part_004): checked arithmetic on uint32 scores. -/

/-- safemath.SafeAdd on WorkScore (uint32): error on overflow. -/
def safeAdd32 (a b : Nat) : Except Unit Nat :=
  if U32 ≤ a + b then .error () else .ok (a + b)

/-- safemath.SafeMul on WorkScore (uint32): error on overflow. -/
def safeMul32 (a b : Nat) : Except Unit Nat :=
  if U32 ≤ a * b then .error () else .ok (a * b)

/-- WorkScore.Add (part_004 lines 12-24): fold the checked addition over the
variadic arguments, surfacing the first overflow. -/
def workScoreAddList (w : Nat) (ins : List Nat) : Except Unit Nat :=
  match ins with
  | [] => .ok w
  | x :: rest =>
    match safeAdd32 w x with
    | .ok r => workScoreAddList r rest
    | .error e => .error e

/-- WorkScore.Multiply (lines 27-34): checked multiplication by `WorkScore(in)`,
with the Go int argument converted to uint32. -/
def workScoreMultiply (w : Nat) (i : Nat) : Except Unit Nat :=
  safeMul32 w (i % U32)

/-- WorkScoreStructure (lines 36-64): the per-item work scores. -/
structure WorkScoreStructure where
  dataKibibyte : Nat
  block : Nat
  missingParent : Nat
  inputScore : Nat
  contextInput : Nat
  outputScore : Nat
  nativeToken : Nat
  staking : Nat
  blockIssuer : Nat
  allotment : Nat
  signatureEd25519 : Nat
  minStrongParentsThreshold : Nat
deriving DecidableEq, Repr

/-- Protocol-wide maxima referenced by MaxBlockWork.  The constants
(MaxBlockSize, MaxInputsCount, ...) are defined elsewhere in the repository and
are taken here as parameters; the claims hold for every value. -/
structure BlockLimits where
  maxBlockSize : Nat
  maxInputsCount : Nat
  maxContextInputsCount : Nat
  maxOutputsCount : Nat
  maxNativeTokenCountPerOutput : Nat
  maxAllotmentCount : Nat
deriving DecidableEq, Repr

/-- MaxBlockWork (lines 83-149): every per-factor multiplication goes through
the checked Multiply, but the running accumulation uses the raw Go `+=` on the
uint32 WorkScore, embedded as wrapping addition mod `U32`. -/
def maxBlockWork (lim : BlockLimits) (w : WorkScoreStructure) : Except Unit Nat :=
  match workScoreMultiply w.dataKibibyte lim.maxBlockSize with
  | .error e => .error e
  | .ok dataFactorBytes =>
    let acc1 := (0 + dataFactorBytes / 1024) % U32
    let acc2 := (acc1 + w.block) % U32
    match workScoreMultiply w.missingParent w.minStrongParentsThreshold with
    | .error e => .error e
    | .ok missingParentsFactor =>
      let acc3 := (acc2 + missingParentsFactor) % U32
      match workScoreMultiply w.inputScore lim.maxInputsCount with
      | .error e => .error e
      | .ok inputsFactor =>
        let acc4 := (acc3 + inputsFactor) % U32
        match workScoreMultiply w.contextInput lim.maxContextInputsCount with
        | .error e => .error e
        | .ok contextInputsFactor =>
          let acc5 := (acc4 + contextInputsFactor) % U32
          match workScoreMultiply w.outputScore lim.maxOutputsCount with
          | .error e => .error e
          | .ok outputsFactor =>
            let acc6 := (acc5 + outputsFactor) % U32
            match workScoreMultiply w.nativeToken
                (lim.maxNativeTokenCountPerOutput * lim.maxOutputsCount) with
            | .error e => .error e
            | .ok nativeTokensFactor =>
              let acc7 := (acc6 + nativeTokensFactor) % U32
              match workScoreMultiply w.staking lim.maxOutputsCount with
              | .error e => .error e
              | .ok stakingFactor =>
                let acc8 := (acc7 + stakingFactor) % U32
                match workScoreMultiply w.blockIssuer lim.maxOutputsCount with
                | .error e => .error e
                | .ok blockIssuerFactor =>
                  let acc9 := (acc8 + blockIssuerFactor) % U32
                  match workScoreMultiply w.allotment lim.maxAllotmentCount with
                  | .error e => .error e
                  | .ok allotmentsFactor =>
                    let acc10 := (acc9 + allotmentsFactor) % U32
                    match workScoreMultiply w.signatureEd25519 (1 + lim.maxInputsCount) with
                    | .error e => .error e
                    | .ok signatureFactor => .ok ((acc10 + signatureFactor) % U32)

/-! Validation pipeline (tpkg/test_consts.go lines 42-73). -/

/-- The seven checks of the default stardust pipeline, one constructor per
`vm.ExecFunc` named in NewVirtualMachine. -/
inductive ExecCheck where
  | timelocks
  | inputUnlocks
  | senderUnlocked
  | balancedDeposit
  | balancedNativeTokens
  | chainTransitions
  | balancedMana
deriving DecidableEq, Repr

/-- execList of NewVirtualMachine (lines 43-55): the fixed default order. -/
def execList : List ExecCheck :=
  [.timelocks, .inputUnlocks, .senderUnlocked, .balancedDeposit,
   .balancedNativeTokens, .chainTransitions, .balancedMana]

/-- Modelled from the spec: `vm.RunVMFuncs` is not under src/; per §4.3 and §7
the checks run in list order and the first violated check aborts the whole run
with its violation.  Each check's outcome on the fixed transaction and working
set is abstracted as `result c`. -/
def runVMFuncs (result : ExecCheck → Option Nat) : List ExecCheck → Option Nat
  | [] => none
  | c :: rest =>
    match result c with
    | some v => some v
    | none => runVMFuncs result rest

/-- Execute of the stardust virtual machine on the default pipeline (lines
61-73, no override funcs): run the seven checks of execList in order. -/
def stardustExecute (result : ExecCheck → Option Nat) : Option Nat :=
  runVMFuncs result execList

/-! Concrete fixtures used by witnesses and counterexamples. -/

/-- Sample account output, block-issuer-free. -/
def acctBase : AccountOutput where
  amount := 100
  mana := 0
  nativeTokens := []
  accountID := 1
  stateController := 10
  governor := 20
  stateIndex := 5
  stateMetadata := []
  foundryCounter := 0
  metadataFeat := none
  blockIssuerFeat := none
  immutableFeatures := []

/-- Decay provider with identity stored-mana decay and zero potential mana. -/
def decay0 : ManaDecayProvider where
  storedManaWithDecay := fun m _ _ => m
  potentialManaWithDecay := fun _ _ _ => 0

/-- Empty working set. -/
def ws0 : WorkingSet where
  txCreationTime := 0
  outputs := []
  allotments := []
  bic := []
  inChains := []
  utxoInputsWithCreationTime := []

/-- Params over the empty working set. -/
def params0 : Params where
  workingSet := ws0
  protocolParameters := { livenessThreshold := 10 }
  decay := decay0

/-! Lemmas and theorems for the claims. -/

theorem runVMFuncs_append_first (r : ExecCheck → Option Nat) (pre post : List ExecCheck)
    (c : ExecCheck) (v : Nat) (hpre : ∀ x ∈ pre, r x = none) (hc : r c = some v) :
    runVMFuncs r (pre ++ c :: post) = some v := by
  induction pre with
  | nil => simp [runVMFuncs, hc]
  | cons x xs ih =>
    have hx : r x = none := hpre x (List.mem_cons_self x xs)
    simp only [List.cons_append, runVMFuncs, hx]
    exact ih fun y hy => hpre y (List.mem_cons_of_mem x hy)

/-- C1: the default validation pipeline runs exactly the seven checks
timelocks, input unlocks, sender unlocked, balanced deposit, balanced native
tokens, chain transitions, balanced mana in that fixed order, and is fail-fast:
whenever every check before `c` passes and `c` is violated, the whole run
aborts with the violation of `c`, for every possible behaviour of the checks
after `c` (so no later check influences the outcome); when all checks pass the
run succeeds. -/
theorem defaultPipeline_sevenChecks_failFast :
    execList = [ExecCheck.timelocks, ExecCheck.inputUnlocks, ExecCheck.senderUnlocked,
      ExecCheck.balancedDeposit, ExecCheck.balancedNativeTokens, ExecCheck.chainTransitions,
      ExecCheck.balancedMana] ∧
    (∀ result : ExecCheck → Option Nat, (∀ c, result c = none) →
      stardustExecute result = none) ∧
    (∀ (result : ExecCheck → Option Nat) (pre post : List ExecCheck) (c : ExecCheck) (v : Nat),
      execList = pre ++ c :: post →
      (∀ x ∈ pre, result x = none) → result c = some v →
      stardustExecute result = some v) := by
  refine ⟨rfl, ?_, ?_⟩
  · intro r h
    simp [stardustExecute, execList, runVMFuncs, h]
  · intro r pre post c v hsplit hpre hc
    unfold stardustExecute
    rw [hsplit]
    exact runVMFuncs_append_first r pre post c v hpre hc

/-- Witness for C1: the fourth check (balanced deposit) is the first violated
one, so the pipeline reports its violation. -/
theorem defaultPipeline_sevenChecks_failFast_witness :
    stardustExecute (fun c => if c = ExecCheck.balancedDeposit then some 7 else none) =
      some 7 :=
  defaultPipeline_sevenChecks_failFast.2.2
    (fun c => if c = ExecCheck.balancedDeposit then some 7 else none)
    [ExecCheck.timelocks, ExecCheck.inputUnlocks, ExecCheck.senderUnlocked]
    [ExecCheck.balancedNativeTokens, ExecCheck.chainTransitions, ExecCheck.balancedMana]
    ExecCheck.balancedDeposit 7 rfl (by decide) (by decide)

theorem accountGovernanceSTVF_ok_iff (current next : AccountOutput) :
    accountGovernanceSTVF current next = .ok ↔
      current.amount = next.amount ∧ current.nativeTokens = next.nativeTokens ∧
      current.stateIndex = next.stateIndex ∧ current.stateMetadata = next.stateMetadata ∧
      current.foundryCounter = next.foundryCounter := by
  simp only [accountGovernanceSTVF]
  split_ifs with g1 g2 g3 g4 g5 <;> simp_all

theorem accountStateSTVF_ok_necessary (input : ChainOutputWithCreationTime)
    (next : AccountOutput) (vmParams : Params)
    (h : accountStateSTVF input next vmParams = .ok) :
    input.output.stateController = next.stateController ∧
    input.output.governor = next.governor ∧
    input.output.foundryCounter ≤ next.foundryCounter ∧
    next.stateIndex = (input.output.stateIndex + 1) % U32 := by
  simp only [accountStateSTVF] at h
  split_ifs at h with h1 h2 h3 h4 h5 h6 h7 <;>
    first
      | exact VmResult.noConfusion h
      | exact ⟨not_ne_iff.mp h1, not_ne_iff.mp h2, Nat.le_of_not_lt h3, (not_ne_iff.mp h4).symm⟩

/-- Account output whose state index jumps by two relative to `acctBase`. -/
def jumpNext : AccountOutput := { acctBase with stateIndex := acctBase.stateIndex + 2 }

/-- C2: an account state-change transition whose state index differs succeeds
only if the output state index is the input state index plus one (uint32
arithmetic), the state controller and governor are unchanged and the foundry
counter does not decrease; a concrete jump of the state index by two is
rejected with an error of the invalid-chain-transition family. -/
theorem accountStateTransition_requiresIncrementByOne :
    (∀ (input : ChainOutputWithCreationTime) (vmParams : Params) (next : AccountOutput),
      input.output.stateIndex ≠ next.stateIndex →
      accountStateChangeValid input vmParams next = .ok →
      next.stateIndex = (input.output.stateIndex + 1) % U32 ∧
      input.output.stateController = next.stateController ∧
      input.output.governor = next.governor ∧
      input.output.foundryCounter ≤ next.foundryCounter) ∧
    accountStateChangeValid ⟨acctBase, 0⟩ params0 jumpNext = .err .stateIndexNotIncremented ∧
    VmError.stateIndexNotIncremented.isInvalidAccountTransition = true := by
  refine ⟨?_, by decide, rfl⟩
  intro input vmParams next hidx hok
  simp only [accountStateChangeValid] at hok
  split_ifs at hok with h1 h2 <;>
    first
      | exact VmResult.noConfusion hok
      | exact absurd h2 hidx
      | (obtain ⟨hsc, hgv, hfc, hix⟩ := accountStateSTVF_ok_necessary input next vmParams hok
         exact ⟨hix, hsc, hgv, hfc⟩)

/-- Account output advancing the state index of `acctBase` by exactly one. -/
def incNext : AccountOutput := { acctBase with stateIndex := acctBase.stateIndex + 1 }

/-- Witness for C2 at a successful increment-by-one transition. -/
theorem accountStateTransition_requiresIncrementByOne_witness :
    incNext.stateIndex = (acctBase.stateIndex + 1) % U32 ∧
    acctBase.stateController = incNext.stateController ∧
    acctBase.governor = incNext.governor ∧
    acctBase.foundryCounter ≤ incNext.foundryCounter :=
  accountStateTransition_requiresIncrementByOne.1 ⟨acctBase, 0⟩ params0 incNext
    (by decide) (by decide)

/-- Account output changing only the state controller of `acctBase`. -/
def ctrlChangedNext : AccountOutput := { acctBase with stateController := 99 }

/-- Account output changing only the amount of `acctBase`. -/
def amountChangedNext : AccountOutput := { acctBase with amount := 5 }

/-- C3: a governance transition (state index unchanged) succeeds whenever
amount, native tokens, state metadata, foundry counter and immutable features
are all unchanged (so in particular when only the state controller, governor or
mutable metadata feature differ), and cannot succeed when the amount, native
tokens, state metadata or foundry counter differ; concretely a pure
state-controller change is accepted and an amount change is rejected. -/
theorem accountGovernanceTransition_onlyGovernanceFieldsMayChange :
    (∀ (input : ChainOutputWithCreationTime) (vmParams : Params) (next : AccountOutput),
      input.output.stateIndex = next.stateIndex →
      (input.output.amount = next.amount →
        input.output.nativeTokens = next.nativeTokens →
        input.output.stateMetadata = next.stateMetadata →
        input.output.foundryCounter = next.foundryCounter →
        input.output.immutableFeatures = next.immutableFeatures →
        accountStateChangeValid input vmParams next = .ok) ∧
      ((input.output.amount ≠ next.amount ∨ input.output.nativeTokens ≠ next.nativeTokens ∨
        input.output.stateMetadata ≠ next.stateMetadata ∨
        input.output.foundryCounter ≠ next.foundryCounter) →
        accountStateChangeValid input vmParams next ≠ .ok)) ∧
    accountStateChangeValid ⟨acctBase, 0⟩ params0 ctrlChangedNext = .ok ∧
    accountStateChangeValid ⟨acctBase, 0⟩ params0 amountChangedNext = .err .amountChangedGov := by
  refine ⟨?_, by decide, by decide⟩
  intro input vmParams next hidx
  constructor
  · intro ham hnt hsm hfc himm
    simp [accountStateChangeValid, accountGovernanceSTVF, hidx, ham, hnt, hsm, hfc, himm]
  · intro hdiff hok
    simp only [accountStateChangeValid] at hok
    split_ifs at hok with h1 h2 <;>
      first
        | exact VmResult.noConfusion hok
        | exact h2 hidx
        | (rw [accountGovernanceSTVF_ok_iff] at hok
           rcases hdiff with h | h | h | h
           · exact h hok.1
           · exact h hok.2.1
           · exact h hok.2.2.2.1
           · exact h hok.2.2.2.2)

/-- Witness for C3: the pure state-controller change is accepted. -/
theorem accountGovernanceTransition_onlyGovernanceFieldsMayChange_witness :
    accountStateChangeValid ⟨acctBase, 0⟩ params0 ctrlChangedNext = .ok :=
  (accountGovernanceTransition_onlyGovernanceFieldsMayChange.1 ⟨acctBase, 0⟩ params0
    ctrlChangedNext rfl).1 rfl rfl rfl rfl rfl

/-- C7: destroying an account that carries a block issuer feature is valid only
if the feature's expiry slot is non-zero and strictly before the transaction's
creation slot and the BIC is known and non-negative; when the expiry has not
passed the destruction is rejected with the block-issuer expiry error no matter
what the BIC snapshot holds (the expiry check precedes the credit lookup). -/
theorem accountDestroy_blockIssuerExpiryBeforeCredit
    (input : ChainOutputWithCreationTime) (vmParams : Params) (f : BlockIssuerFeature)
    (hf : input.output.blockIssuerFeat = some f) :
    (accountDestructionValid input vmParams = .ok →
      f.expirySlot ≠ 0 ∧ f.expirySlot < vmParams.workingSet.txCreationTime ∧
      ∃ b, lookupAssoc vmParams.workingSet.bic input.output.accountID = some b ∧ 0 ≤ b) ∧
    (vmParams.workingSet.txCreationTime ≤ f.expirySlot →
      accountDestructionValid input vmParams = .err .cannotDestroyBeforeExpiry) := by
  constructor
  · intro hok
    simp only [accountDestructionValid, hf] at hok
    split_ifs at hok with h1
    push_neg at h1
    rcases hb : lookupAssoc vmParams.workingSet.bic input.output.accountID with _ | b
    · rw [hb] at hok
      exact VmResult.noConfusion hok
    · rw [hb] at hok
      simp only at hok
      split_ifs at hok with h2
      exact ⟨h1.1, h1.2, b, rfl, Int.not_lt.mp h2⟩
  · intro hfut
    simp only [accountDestructionValid, hf]
    have hor : f.expirySlot = 0 ∨ vmParams.workingSet.txCreationTime ≤ f.expirySlot :=
      Or.inr hfut
    simp [hor]

/-- Params whose BIC snapshot holds credit 3 for account 1. -/
def destroyParams : Params :=
  { params0 with workingSet := { ws0 with txCreationTime := 10, bic := [(1, 3)] } }

/-- Account output carrying an expired block issuer feature. -/
def expiredBIAcct : AccountOutput :=
  { acctBase with blockIssuerFeat := some { expirySlot := 5 } }

/-- Witness for C7: with an expired feature and a known non-negative credit the
destruction succeeds, hence the necessary conditions hold. -/
theorem accountDestroy_blockIssuerExpiryBeforeCredit_witness :
    (5 : Nat) ≠ 0 ∧ (5 : Nat) < destroyParams.workingSet.txCreationTime ∧
    ∃ b, lookupAssoc destroyParams.workingSet.bic expiredBIAcct.accountID = some b ∧ 0 ≤ b :=
  (accountDestroy_blockIssuerExpiryBeforeCredit ⟨expiredBIAcct, 0⟩ destroyParams
    { expirySlot := 5 } rfl).1 (by decide)

/-- Block issuer feature expiring at slot 100. -/
def biFeat100 : BlockIssuerFeature where
  expirySlot := 100

/-- Account output adding a block issuer feature on the output side. -/
def c10Next : AccountOutput := { acctBase with blockIssuerFeat := some biFeat100 }

/-- Params with a known zero credit for account 1. -/
def c10Params : Params := { params0 with workingSet := { ws0 with bic := [(1, 0)] } }

/-- C10 (code bug): when the input-side account has no block issuer feature but
the output side adds one, and the BIC is present and non-negative,
accountBlockIssuerSTVF dereferences the nil input-side feature pointer — the
embedded run reaches the crash outcome instead of returning a result. -/
theorem accountBlockIssuerSTVF_nilDereference :
    accountBlockIssuerSTVF ⟨acctBase, 0⟩ c10Next c10Params = .crash ∧
    acctBase.blockIssuerFeat = none ∧
    c10Next.blockIssuerFeat = some biFeat100 ∧
    lookupAssoc c10Params.workingSet.bic acctBase.accountID = some 0 ∧
    (0 : Int) ≤ 0 := by
  refine ⟨?_, rfl, rfl, by decide, le_refl 0⟩
  decide

/-- Block limits with the protocol's usual maxima. -/
def limFix : BlockLimits where
  maxBlockSize := 32768
  maxInputsCount := 128
  maxContextInputsCount := 128
  maxOutputsCount := 128
  maxNativeTokenCountPerOutput := 64
  maxAllotmentCount := 128

/-- Work-score structure whose factors sum past the uint32 range while every
individual Multiply stays in range. -/
def wsOverflow : WorkScoreStructure where
  dataKibibyte := 0
  block := 4294967295
  missingParent := 0
  inputScore := 0
  contextInput := 0
  outputScore := 0
  nativeToken := 0
  staking := 0
  blockIssuer := 0
  allotment := 0
  signatureEd25519 := 1
  minStrongParentsThreshold := 0

/-- C9 (code bug): WorkScore.Add and WorkScore.Multiply report overflow as an
error, but MaxBlockWork's running accumulation is a raw wrapping uint32
addition: on `wsOverflow` the true sum of the factors is 2^32 + 128, yet
MaxBlockWork silently returns 128 with no error. -/
theorem maxBlockWork_accumulation_wraps_silently :
    workScoreAddList (U32 - 1) [1] = .error () ∧
    workScoreMultiply (2 ^ 31) 2 = .error () ∧
    maxBlockWork limFix wsOverflow = .ok 128 ∧
    wsOverflow.block + wsOverflow.signatureEd25519 * (1 + limFix.maxInputsCount) =
      U32 + 128 := by
  exact ⟨rfl, rfl, rfl, by decide⟩

/-- Serial numbers of the other new foundry outputs anchored to the same
account that appear before this foundry in the transaction's output list —
the serials the ordering clause of the claim quantifies over (skipping
non-foundries, foundries of other accounts and non-new foundries, and cut off
at this foundry itself). -/
def newFoundrySerialsBefore (ci tf : Nat) (inCh : List Nat) : List WsOutput → List Nat
  | [] => []
  | .foundry ident fid serial _ _ :: rest =>
    if ident = ci then
      if fid ∈ inCh then newFoundrySerialsBefore ci tf inCh rest
      else if fid = tf then []
      else serial :: newFoundrySerialsBefore ci tf inCh rest
    else newFoundrySerialsBefore ci tf inCh rest
  | .basic _ _ _ :: rest => newFoundrySerialsBefore ci tf inCh rest
  | .nft _ _ _ :: rest => newFoundrySerialsBefore ci tf inCh rest
  | .accountOut _ :: rest => newFoundrySerialsBefore ci tf inCh rest
  | .other _ _ :: rest => newFoundrySerialsBefore ci tf inCh rest

theorem foundrySerialOrderLoop_ok_iff (ci cs tf : Nat) (inCh : List Nat)
    (outs : List WsOutput) :
    foundrySerialOrderLoop ci cs tf inCh outs = .ok ↔
      ∀ s ∈ newFoundrySerialsBefore ci tf inCh outs, s < cs := by
  induction outs with
  | nil => simp [foundrySerialOrderLoop, newFoundrySerialsBefore]
  | cons o rest ih =>
    cases o with
    | foundry ident fid serial amount mana =>
      by_cases hident : ident = ci
      · by_cases hin : fid ∈ inCh
        · simp [foundrySerialOrderLoop, newFoundrySerialsBefore, hident, hin, ih]
        · by_cases htf : fid = tf
          · subst htf
            simp [foundrySerialOrderLoop, newFoundrySerialsBefore, hident, hin]
          · by_cases hser : cs ≤ serial
            · simp only [foundrySerialOrderLoop, newFoundrySerialsBefore, hident, hin, htf,
                hser, if_true, if_false, ite_true, ite_false, if_neg, if_pos]
              constructor
              · intro hok
                simp [hident, hin, htf, hser] at hok
              · intro hall
                exact absurd (hall serial (by simp [hident, hin, htf])) (by omega)
            · simp [foundrySerialOrderLoop, newFoundrySerialsBefore, hident, hin, htf,
                hser, ih, Nat.lt_of_not_le hser]
      · simp [foundrySerialOrderLoop, newFoundrySerialsBefore, hident, ih]
    | basic a m ml => simp [foundrySerialOrderLoop, newFoundrySerialsBefore, ih]
    | nft a m ml => simp [foundrySerialOrderLoop, newFoundrySerialsBefore, ih]
    | accountOut a => simp [foundrySerialOrderLoop, newFoundrySerialsBefore, ih]
    | other a m => simp [foundrySerialOrderLoop, newFoundrySerialsBefore, ih]

theorem foundrySerialNumberValid_ok_iff (ci cs : Nat) (p : Params)
    (inA outA : AccountOutput) (tf : Nat) :
    foundrySerialNumberValid ci cs p inA outA tf = .ok ↔
      inA.foundryCounter < cs ∧ cs ≤ outA.foundryCounter ∧
      ∀ s ∈ newFoundrySerialsBefore ci tf p.workingSet.inChains p.workingSet.outputs,
        s < cs := by
  simp only [foundrySerialNumberValid]
  split_ifs with h
  · constructor
    · intro hok
      simp at hok
    · intro hs
      exact absurd h (by omega)
  · push_neg at h
    rw [foundrySerialOrderLoop_ok_iff]
    exact ⟨fun hs => ⟨h.1, h.2, hs⟩, fun hs => hs.2.2⟩

/-- Output-side account of a foundry genesis, bumping the counter to 1. -/
def foundryOutAcct : AccountOutput := { acctBase with foundryCounter := 1 }

/-- Counterexample to C4 as stated: with the anchoring account's counter moving
from 0 to 1, the serial number 0 lies in the claimed half-open interval
[old counter, new counter) = [0, 1) and there is no earlier new foundry, yet
the code rejects it (the code's interval check is `old < serial ≤ new`). -/
theorem foundrySerial_lowEndpoint_rejected :
    foundrySerialNumberValid 1 0 params0 acctBase foundryOutAcct 77 =
      .err .serialOutOfInterval ∧
    acctBase.foundryCounter ≤ 0 ∧ 0 < foundryOutAcct.foundryCounter ∧
    newFoundrySerialsBefore 1 77 params0.workingSet.inChains params0.workingSet.outputs =
      [] := by
  exact ⟨by decide, by decide, by decide, by decide⟩

/-- C4 (amended): the serial number of a new foundry anchored to an account
whose counter moves from old (input side) to new (output side) is accepted
exactly when it lies in the half-open interval (old, new] — strictly greater
than the old counter and at most the new counter — and is strictly greater than
the serial of every other new foundry of the same account appearing earlier in
the output list; a serial equal to old + 2 when the counter increased by 1 is
rejected. -/
theorem foundryGenesisSerial_inIntervalAboveOldCounter :
    (∀ (ci cs : Nat) (p : Params) (inA outA : AccountOutput) (tf : Nat),
      foundrySerialNumberValid ci cs p inA outA tf = .ok ↔
        inA.foundryCounter < cs ∧ cs ≤ outA.foundryCounter ∧
        ∀ s ∈ newFoundrySerialsBefore ci tf p.workingSet.inChains p.workingSet.outputs,
          s < cs) ∧
    (∀ (ci : Nat) (p : Params) (inA outA : AccountOutput) (tf : Nat),
      outA.foundryCounter = inA.foundryCounter + 1 →
      foundrySerialNumberValid ci (inA.foundryCounter + 2) p inA outA tf =
        .err .serialOutOfInterval) := by
  refine ⟨foundrySerialNumberValid_ok_iff, ?_⟩
  intro ci p inA outA tf hbump
  simp only [foundrySerialNumberValid]
  rw [if_pos]
  omega

/-- Witness for C4: the serial number 1 with the counter moving from 0 to 1 and
no earlier new foundry is accepted. -/
theorem foundryGenesisSerial_inIntervalAboveOldCounter_witness :
    foundrySerialNumberValid 1 1 params0 acctBase foundryOutAcct 77 = .ok :=
  (foundryGenesisSerial_inIntervalAboveOldCounter.1 1 1 params0 acctBase
    foundryOutAcct 77).mpr ⟨by decide, by decide, by decide⟩

/-- C5: whenever a block issuer feature exists on either side of an account
state-change transition, validation fails with an invalid-block-issuer
error when the BIC is missing or negative; an unexpired feature cannot be
removed; and when the unexpired feature's expiry changes to a non-zero value
closer than livenessThreshold slots after the creation slot, validation also
fails with an invalid-block-issuer error. -/
theorem accountBlockIssuer_creditAndExpiryRules
    (input : ChainOutputWithCreationTime) (next : AccountOutput) (vmParams : Params)
    (hfeat : input.output.blockIssuerFeat ≠ none ∨ next.blockIssuerFeat ≠ none) :
    ((∀ b, lookupAssoc vmParams.workingSet.bic input.output.accountID = some b → b < 0) →
      ∃ e, accountBlockIssuerSTVF input next vmParams = .err e ∧
        e.isInvalidBlockIssuerTransition = true) ∧
    (∀ cf, input.output.blockIssuerFeat = some cf →
      vmParams.workingSet.txCreationTime ≤ cf.expirySlot →
      next.blockIssuerFeat = none →
      ∃ e, accountBlockIssuerSTVF input next vmParams = .err e ∧
        e.isInvalidBlockIssuerTransition = true) ∧
    (∀ cf nf, input.output.blockIssuerFeat = some cf →
      vmParams.workingSet.txCreationTime ≤ cf.expirySlot →
      next.blockIssuerFeat = some nf →
      nf.expirySlot ≠ 0 → nf.expirySlot ≠ cf.expirySlot →
      nf.expirySlot < vmParams.workingSet.txCreationTime +
        vmParams.protocolParameters.livenessThreshold →
      ∃ e, accountBlockIssuerSTVF input next vmParams = .err e ∧
        e.isInvalidBlockIssuerTransition = true) := by
  have hcond : ¬(input.output.blockIssuerFeat = none ∧ next.blockIssuerFeat = none) := by
    rcases hfeat with h | h
    · exact fun hc => h hc.1
    · exact fun hc => h hc.2
  refine ⟨?_, ?_, ?_⟩
  · intro hneg
    simp only [accountBlockIssuerSTVF, if_neg hcond]
    rcases hlk : lookupAssoc vmParams.workingSet.bic input.output.accountID with _ | b
    · simp only [hlk]
      exact ⟨.noBICProvided, rfl, rfl⟩
    · simp only [hlk]
      rw [if_pos (hneg b hlk)]
      exact ⟨.negativeBIC, rfl, rfl⟩
  · intro cf hcf hexp hnone
    simp only [accountBlockIssuerSTVF, if_neg hcond]
    rcases hlk : lookupAssoc vmParams.workingSet.bic input.output.accountID with _ | b
    · simp only [hlk]
      exact ⟨.noBICProvided, rfl, rfl⟩
    · simp only [hlk]
      by_cases hb : b < 0
      · rw [if_pos hb]
        exact ⟨.negativeBIC, rfl, rfl⟩
      · rw [if_neg hb]
        simp only [blockIssuerExpiryCheck, hcf, hnone]
        rw [if_pos hexp]
        exact ⟨.cannotRemoveBlockIssuer, rfl, rfl⟩
  · intro cf nf hcf hexp hnf h0 hne hsoon
    simp only [accountBlockIssuerSTVF, if_neg hcond]
    rcases hlk : lookupAssoc vmParams.workingSet.bic input.output.accountID with _ | b
    · simp only [hlk]
      exact ⟨.noBICProvided, rfl, rfl⟩
    · simp only [hlk]
      by_cases hb : b < 0
      · rw [if_pos hb]
        exact ⟨.negativeBIC, rfl, rfl⟩
      · rw [if_neg hb]
        simp only [blockIssuerExpiryCheck, hcf, hnf]
        rw [if_pos hexp, if_pos ⟨h0, hne, hsoon⟩]
        exact ⟨.expiryTooSoon, rfl, rfl⟩

/-- Account output carrying an unexpired block issuer feature. -/
def activeBIAcct : AccountOutput := { acctBase with blockIssuerFeat := some biFeat100 }

/-- Witness for C5: removing the unexpired feature fails with an
invalid-block-issuer error. -/
theorem accountBlockIssuer_creditAndExpiryRules_witness :
    ∃ e, accountBlockIssuerSTVF ⟨activeBIAcct, 0⟩ acctBase c10Params = .err e ∧
      e.isInvalidBlockIssuerTransition = true :=
  (accountBlockIssuer_creditAndExpiryRules ⟨activeBIAcct, 0⟩ acctBase c10Params
    (Or.inl (by decide))).2.1 biFeat100 rfl (by decide) rfl

/-- Mana attributed to the account on the input side, in the claim's terms:
stored mana decayed to the creation slot plus potential mana accrued by the
amount (uint64 values). -/
def accountManaIn (d : ManaDecayProvider) (input : ChainOutputWithCreationTime)
    (tx : Nat) : Nat :=
  d.storedManaWithDecay input.output.mana input.creationTime tx % U64 +
    d.potentialManaWithDecay input.output.amount input.creationTime tx % U64

/-- Total stored mana of the basic outputs mana-locked to the account beyond
the given slot. -/
def manalockedBasicSum (acct slot : Nat) : List WsOutput → Nat
  | [] => 0
  | .basic _ m ml :: rest =>
    if hasManalockCondition ml acct slot then m % U64 + manalockedBasicSum acct slot rest
    else manalockedBasicSum acct slot rest
  | _ :: rest => manalockedBasicSum acct slot rest

/-- Total stored mana of the NFT outputs mana-locked to the account beyond the
given slot. -/
def manalockedNFTSum (acct slot : Nat) : List WsOutput → Nat
  | [] => 0
  | .nft _ m ml :: rest =>
    if hasManalockCondition ml acct slot then m % U64 + manalockedNFTSum acct slot rest
    else manalockedNFTSum acct slot rest
  | _ :: rest => manalockedNFTSum acct slot rest

/-- Mana reappearing in account-directed destinations, in the claim's terms:
the account's output stored mana, its allotment, and the stored mana of basic
and NFT outputs mana-locked back to the account beyond the liveness
threshold. -/
def accountManaOut (next : AccountOutput) (ws : WorkingSet) (acct lockSlot : Nat) : Nat :=
  next.mana % U64 + allotmentsGet ws.allotments acct % U64 +
    manalockedBasicSum acct lockSlot ws.outputs + manalockedNFTSum acct lockSlot ws.outputs

theorem wadd64_lt (a b : Nat) : wadd64 a b < U64 :=
  Nat.mod_lt _ (by norm_num [U64])

theorem totalManaIn_lt (d : ManaDecayProvider) (tx : Nat)
    (inputs : List (WsOutput × Nat)) : totalManaIn d tx inputs < U64 := by
  have aux : ∀ (l : List (WsOutput × Nat)) (acc : Nat), acc < U64 →
      l.foldl (fun acc p =>
        wadd64 (wadd64 acc (d.storedManaWithDecay p.1.storedMana p.2 tx))
          (d.potentialManaWithDecay p.1.deposit p.2 tx)) acc < U64 := by
    intro l
    induction l with
    | nil => intro acc hacc; simpa using hacc
    | cons x xs ih =>
      intro acc _
      exact ih _ (wadd64_lt _ _)
  exact aux inputs 0 (by norm_num [U64])

theorem totalManaOut_lt (outputs : List WsOutput) (allotments : List (Nat × Nat)) :
    totalManaOut outputs allotments < U64 :=
  wadd64_lt _ _

theorem wsub64_exact (a b : Nat) (ha : a < U64) (hb : b % U64 ≤ a) :
    wsub64 a b = a - b % U64 := by
  unfold wsub64
  rw [Nat.mod_eq_of_lt ha]
  have h2 : b % U64 < U64 := Nat.mod_lt _ (by norm_num [U64])
  have h3 : a + (U64 - b % U64) = U64 + (a - b % U64) := by omega
  rw [h3, Nat.add_mod_left]
  exact Nat.mod_eq_of_lt (by omega)

theorem subtractManalockedBasic_exact (acct slot : Nat) (outputs : List WsOutput) :
    ∀ acc : Nat, acc < U64 → manalockedBasicSum acct slot outputs ≤ acc →
      subtractManalockedBasic outputs acct slot acc =
        acc - manalockedBasicSum acct slot outputs := by
  induction outputs with
  | nil => intro acc _ _; simp [subtractManalockedBasic, manalockedBasicSum]
  | cons o rest ih =>
    intro acc hacc hle
    cases o with
    | basic a m ml =>
      by_cases hml : hasManalockCondition ml acct slot
      · have hsum : manalockedBasicSum acct slot (WsOutput.basic a m ml :: rest) =
            m % U64 + manalockedBasicSum acct slot rest := by
          simp [manalockedBasicSum, hml]
        rw [hsum] at hle
        have hm : m % U64 ≤ acc := by omega
        have hstep : subtractManalockedBasic (WsOutput.basic a m ml :: rest) acct slot acc =
            subtractManalockedBasic rest acct slot (wsub64 acc m) := by
          simp [subtractManalockedBasic, hml]
        rw [hstep, wsub64_exact acc m hacc hm, hsum,
          ih (acc - m % U64) (by omega) (by omega)]
        omega
      · have hsum : manalockedBasicSum acct slot (WsOutput.basic a m ml :: rest) =
            manalockedBasicSum acct slot rest := by
          simp [manalockedBasicSum, hml]
        have hstep : subtractManalockedBasic (WsOutput.basic a m ml :: rest) acct slot acc =
            subtractManalockedBasic rest acct slot acc := by
          simp [subtractManalockedBasic, hml]
        rw [hstep, hsum]
        exact ih acc hacc (by rw [hsum] at hle; exact hle)
    | nft a m ml =>
      simp only [subtractManalockedBasic, manalockedBasicSum]
      exact ih acc hacc (by simpa [manalockedBasicSum] using hle)
    | accountOut a =>
      simp only [subtractManalockedBasic, manalockedBasicSum]
      exact ih acc hacc (by simpa [manalockedBasicSum] using hle)
    | foundry i f s a m =>
      simp only [subtractManalockedBasic, manalockedBasicSum]
      exact ih acc hacc (by simpa [manalockedBasicSum] using hle)
    | other a m =>
      simp only [subtractManalockedBasic, manalockedBasicSum]
      exact ih acc hacc (by simpa [manalockedBasicSum] using hle)

theorem subtractManalockedNFT_exact (acct slot : Nat) (outputs : List WsOutput) :
    ∀ acc : Nat, acc < U64 → manalockedNFTSum acct slot outputs ≤ acc →
      subtractManalockedNFT outputs acct slot acc =
        acc - manalockedNFTSum acct slot outputs := by
  induction outputs with
  | nil => intro acc _ _; simp [subtractManalockedNFT, manalockedNFTSum]
  | cons o rest ih =>
    intro acc hacc hle
    cases o with
    | nft a m ml =>
      by_cases hml : hasManalockCondition ml acct slot
      · have hsum : manalockedNFTSum acct slot (WsOutput.nft a m ml :: rest) =
            m % U64 + manalockedNFTSum acct slot rest := by
          simp [manalockedNFTSum, hml]
        rw [hsum] at hle
        have hm : m % U64 ≤ acc := by omega
        have hstep : subtractManalockedNFT (WsOutput.nft a m ml :: rest) acct slot acc =
            subtractManalockedNFT rest acct slot (wsub64 acc m) := by
          simp [subtractManalockedNFT, hml]
        rw [hstep, wsub64_exact acc m hacc hm, hsum,
          ih (acc - m % U64) (by omega) (by omega)]
        omega
      · have hsum : manalockedNFTSum acct slot (WsOutput.nft a m ml :: rest) =
            manalockedNFTSum acct slot rest := by
          simp [manalockedNFTSum, hml]
        have hstep : subtractManalockedNFT (WsOutput.nft a m ml :: rest) acct slot acc =
            subtractManalockedNFT rest acct slot acc := by
          simp [subtractManalockedNFT, hml]
        rw [hstep, hsum]
        exact ih acc hacc (by rw [hsum] at hle; exact hle)
    | basic a m ml =>
      simp only [subtractManalockedNFT, manalockedNFTSum]
      exact ih acc hacc (by simpa [manalockedNFTSum] using hle)
    | accountOut a =>
      simp only [subtractManalockedNFT, manalockedNFTSum]
      exact ih acc hacc (by simpa [manalockedNFTSum] using hle)
    | foundry i f s a m =>
      simp only [subtractManalockedNFT, manalockedNFTSum]
      exact ih acc hacc (by simpa [manalockedNFTSum] using hle)
    | other a m =>
      simp only [subtractManalockedNFT, manalockedNFTSum]
      exact ih acc hacc (by simpa [manalockedNFTSum] using hle)

theorem blockIssuerManaCheck_eval (input : ChainOutputWithCreationTime)
    (next : AccountOutput) (vmParams : Params)
    (hIn : accountManaIn vmParams.decay input vmParams.workingSet.txCreationTime ≤
      totalManaIn vmParams.decay vmParams.workingSet.txCreationTime
        vmParams.workingSet.utxoInputsWithCreationTime)
    (hOut : accountManaOut next vmParams.workingSet input.output.accountID
        (vmParams.workingSet.txCreationTime +
          vmParams.protocolParameters.livenessThreshold) ≤
      totalManaOut vmParams.workingSet.outputs vmParams.workingSet.allotments) :
    blockIssuerManaCheck input next vmParams =
      if totalManaOut vmParams.workingSet.outputs vmParams.workingSet.allotments -
          accountManaOut next vmParams.workingSet input.output.accountID
            (vmParams.workingSet.txCreationTime +
              vmParams.protocolParameters.livenessThreshold) <
          totalManaIn vmParams.decay vmParams.workingSet.txCreationTime
            vmParams.workingSet.utxoInputsWithCreationTime -
          accountManaIn vmParams.decay input vmParams.workingSet.txCreationTime
      then .err .manaMovedOffAccount else .ok := by
  have hTIn : totalManaIn vmParams.decay vmParams.workingSet.txCreationTime
      vmParams.workingSet.utxoInputsWithCreationTime < U64 := totalManaIn_lt _ _ _
  have hTOut : totalManaOut vmParams.workingSet.outputs vmParams.workingSet.allotments <
      U64 := totalManaOut_lt _ _
  simp only [blockIssuerManaCheck]
  simp only [accountManaIn] at hIn ⊢
  simp only [accountManaOut] at hOut ⊢
  set TIn := totalManaIn vmParams.decay vmParams.workingSet.txCreationTime
    vmParams.workingSet.utxoInputsWithCreationTime with hTInDef
  set TOut := totalManaOut vmParams.workingSet.outputs vmParams.workingSet.allotments
    with hTOutDef
  set S := vmParams.decay.storedManaWithDecay input.output.mana input.creationTime
    vmParams.workingSet.txCreationTime with hSDef
  set P := vmParams.decay.potentialManaWithDecay input.output.amount input.creationTime
    vmParams.workingSet.txCreationTime with hPDef
  set al := allotmentsGet vmParams.workingSet.allotments input.output.accountID with halDef
  set lockSlot := vmParams.workingSet.txCreationTime +
    vmParams.protocolParameters.livenessThreshold with hlockDef
  set B := manalockedBasicSum input.output.accountID lockSlot vmParams.workingSet.outputs
    with hBDef
  set N := manalockedNFTSum input.output.accountID lockSlot vmParams.workingSet.outputs
    with hNDef
  have hSU : S % U64 < U64 := Nat.mod_lt _ (by norm_num [U64])
  have hPU : P % U64 < U64 := Nat.mod_lt _ (by norm_num [U64])
  have e1 : wsub64 TIn S = TIn - S % U64 := wsub64_exact _ _ hTIn (by omega)
  rw [e1]
  have e2 : wsub64 (TIn - S % U64) P = TIn - S % U64 - P % U64 :=
    wsub64_exact _ _ (by omega) (by omega)
  rw [e2]
  have e3 : wsub64 TOut next.mana = TOut - next.mana % U64 :=
    wsub64_exact _ _ hTOut (by omega)
  rw [e3]
  have e4 : wsub64 (TOut - next.mana % U64) al = TOut - next.mana % U64 - al % U64 :=
    wsub64_exact _ _ (by omega) (by omega)
  rw [e4]
  have e5 : subtractManalockedBasic vmParams.workingSet.outputs input.output.accountID
      lockSlot (TOut - next.mana % U64 - al % U64) =
      TOut - next.mana % U64 - al % U64 - B :=
    subtractManalockedBasic_exact _ _ _ _ (by omega) (by omega)
  rw [e5]
  have e6 : subtractManalockedNFT vmParams.workingSet.outputs input.output.accountID
      lockSlot (TOut - next.mana % U64 - al % U64 - B) =
      TOut - next.mana % U64 - al % U64 - B - N :=
    subtractManalockedNFT_exact _ _ _ _ (by omega) (by omega)
  rw [e6]
  have ein : TIn - S % U64 - P % U64 = TIn - (S % U64 + P % U64) := by omega
  have eout : TOut - next.mana % U64 - al % U64 - B - N =
      TOut - (next.mana % U64 + al % U64 + B + N) := by omega
  rw [ein, eout]

/-- Input-side account of the C6 counterexample: stored mana 10, active block
issuer feature. -/
def c6In : AccountOutput := { acctBase with mana := 10, blockIssuerFeat := some biFeat100 }

/-- Output-side account of the C6 counterexample: stored mana 5, same feature. -/
def c6Next : AccountOutput := { acctBase with mana := 5, blockIssuerFeat := some biFeat100 }

/-- Params of the C6 counterexample: the account's output is the only output,
the account's input the only input, no allotments, credit 0 known. -/
def c6Params : Params where
  workingSet :=
    { txCreationTime := 0
      outputs := [.accountOut c6Next]
      allotments := []
      bic := [(1, 0)]
      inChains := []
      utxoInputsWithCreationTime := [(.accountOut c6In, 0)] }
  protocolParameters := { livenessThreshold := 10 }
  decay := decay0

/-- Counterexample to C6 as stated: the account's input side carries 10 mana
but only 5 reappears in account destinations (stored mana 5, no allotment, no
mana-locked outputs) — a shortfall of 5 — yet the transition is accepted: the
check only compares non-account mana in against non-account mana out (both 0
here), so the disappearance of account mana goes unnoticed. -/
theorem accountBlockIssuerMana_shortfallAccepted :
    accountBlockIssuerSTVF ⟨c6In, 0⟩ c6Next c6Params = .ok ∧
    accountManaIn c6Params.decay ⟨c6In, 0⟩ c6Params.workingSet.txCreationTime = 10 ∧
    accountManaOut c6Next c6Params.workingSet c6In.accountID 10 = 5 ∧ (5 : Nat) < 10 := by
  exact ⟨by decide, by decide, by decide, by decide⟩

/-- Output-side account keeping all 10 units of account mana as stored mana. -/
def c6NextKept : AccountOutput := { acctBase with mana := 10, blockIssuerFeat := some biFeat100 }

/-- Params where 5 units of account mana leak to a non-account output while
total mana is conserved (shortfall 5, net decrease 0). -/
def c6LeakParams : Params where
  workingSet :=
    { txCreationTime := 0
      outputs := [.accountOut c6Next, .other 0 5]
      allotments := []
      bic := [(1, 0)]
      inChains := []
      utxoInputsWithCreationTime := [(.accountOut c6In, 0)] }
  protocolParameters := { livenessThreshold := 10 }
  decay := decay0

/-- Params where the account keeps all its mana but 3 units of non-account
mana are burned (shortfall 0, net decrease 3). -/
def c6BurnParams : Params where
  workingSet :=
    { txCreationTime := 0
      outputs := [.accountOut c6NextKept, .other 0 7]
      allotments := []
      bic := [(1, 0)]
      inChains := []
      utxoInputsWithCreationTime := [(.accountOut c6In, 0), (.other 0 10, 0)] }
  protocolParameters := { livenessThreshold := 10 }
  decay := decay0

/-- C6 (amended): for a state-change transition keeping an active block issuer
feature, with a known non-negative credit and with the account's attributed
input mana (resp. account-directed output mana) bounded by the transaction's
total mana in (resp. out), the transition is rejected with the
invalid-block-issuer mana error exactly when the mana entering from sources
other than the account exceeds the mana reappearing in destinations other than
the account — equivalently, exactly when the transaction's net mana decrease
exceeds the account's shortfall (attributed input-side mana minus
account-directed output mana).  The check thus conserves non-account mana
outside the account rather than pinning the account's own mana: an account
leaking 5 mana to a non-account output with nothing burned is accepted, while
an account keeping all its mana in a transaction that burns 3 units of
non-account mana is rejected. -/
theorem accountBlockIssuerMana_shortfallBeyondBurnRejected
    (input : ChainOutputWithCreationTime) (next : AccountOutput) (vmParams : Params)
    (cf : BlockIssuerFeature) (b : Int)
    (hcf : input.output.blockIssuerFeat = some cf)
    (hnf : next.blockIssuerFeat = some cf)
    (hexp : vmParams.workingSet.txCreationTime ≤ cf.expirySlot)
    (hb : lookupAssoc vmParams.workingSet.bic input.output.accountID = some b)
    (hbn : ¬ b < 0)
    (hIn : accountManaIn vmParams.decay input vmParams.workingSet.txCreationTime ≤
      totalManaIn vmParams.decay vmParams.workingSet.txCreationTime
        vmParams.workingSet.utxoInputsWithCreationTime)
    (hOut : accountManaOut next vmParams.workingSet input.output.accountID
        (vmParams.workingSet.txCreationTime +
          vmParams.protocolParameters.livenessThreshold) ≤
      totalManaOut vmParams.workingSet.outputs vmParams.workingSet.allotments) :
    ((accountBlockIssuerSTVF input next vmParams = .err .manaMovedOffAccount ↔
      totalManaOut vmParams.workingSet.outputs vmParams.workingSet.allotments +
        accountManaIn vmParams.decay input vmParams.workingSet.txCreationTime <
      totalManaIn vmParams.decay vmParams.workingSet.txCreationTime
        vmParams.workingSet.utxoInputsWithCreationTime +
        accountManaOut next vmParams.workingSet input.output.accountID
          (vmParams.workingSet.txCreationTime +
            vmParams.protocolParameters.livenessThreshold)) ∧
    (accountBlockIssuerSTVF input next vmParams = .ok ↔
      totalManaIn vmParams.decay vmParams.workingSet.txCreationTime
        vmParams.workingSet.utxoInputsWithCreationTime +
        accountManaOut next vmParams.workingSet input.output.accountID
          (vmParams.workingSet.txCreationTime +
            vmParams.protocolParameters.livenessThreshold) ≤
      totalManaOut vmParams.workingSet.outputs vmParams.workingSet.allotments +
        accountManaIn vmParams.decay input vmParams.workingSet.txCreationTime)) ∧
    (accountBlockIssuerSTVF ⟨c6In, 0⟩ c6Next c6LeakParams = .ok ∧
      accountBlockIssuerSTVF ⟨c6In, 0⟩ c6NextKept c6BurnParams =
        .err .manaMovedOffAccount) := by
  constructor
  case right => exact ⟨by decide, by decide⟩
  have hcond : ¬(input.output.blockIssuerFeat = none ∧ next.blockIssuerFeat = none) := by
    intro hc
    rw [hcf] at hc
    exact Option.noConfusion hc.1
  have heval : accountBlockIssuerSTVF input next vmParams =
      blockIssuerManaCheck input next vmParams := by
    simp only [accountBlockIssuerSTVF, if_neg hcond, hb]
    rw [if_neg hbn]
    simp only [blockIssuerExpiryCheck, hcf, hnf]
    rw [if_pos hexp, if_neg]
    intro hx
    exact hx.2.1 rfl
  rw [heval, blockIssuerManaCheck_eval input next vmParams hIn hOut]
  set TIn := totalManaIn vmParams.decay vmParams.workingSet.txCreationTime
    vmParams.workingSet.utxoInputsWithCreationTime with hTInDef
  set TOut := totalManaOut vmParams.workingSet.outputs vmParams.workingSet.allotments
    with hTOutDef
  set AIn := accountManaIn vmParams.decay input vmParams.workingSet.txCreationTime
    with hAInDef
  set AOut := accountManaOut next vmParams.workingSet input.output.accountID
    (vmParams.workingSet.txCreationTime + vmParams.protocolParameters.livenessThreshold)
    with hAOutDef
  by_cases hlt : TOut - AOut < TIn - AIn
  · rw [if_pos hlt]
    constructor
    · exact ⟨fun _ => by omega, fun _ => rfl⟩
    · constructor
      · intro hx
        exact VmResult.noConfusion hx
      · intro hx
        exact absurd hx (by omega)
  · rw [if_neg hlt]
    constructor
    · constructor
      · intro hx
        exact VmResult.noConfusion hx
      · intro hx
        exact absurd hx (by omega)
    · exact ⟨fun _ => by omega, fun _ => rfl⟩

/-- Params for the C6 witness: the kept-mana account output is the only
output. -/
def c6ParamsKept : Params where
  workingSet :=
    { txCreationTime := 0
      outputs := [.accountOut c6NextKept]
      allotments := []
      bic := [(1, 0)]
      inChains := []
      utxoInputsWithCreationTime := [(.accountOut c6In, 0)] }
  protocolParameters := { livenessThreshold := 10 }
  decay := decay0

/-- Witness for C6 (amended): the account keeping all its mana is accepted. -/
theorem accountBlockIssuerMana_shortfallBeyondBurnRejected_witness :
    accountBlockIssuerSTVF ⟨c6In, 0⟩ c6NextKept c6ParamsKept = .ok :=
  (accountBlockIssuerMana_shortfallBeyondBurnRejected ⟨c6In, 0⟩ c6NextKept c6ParamsKept
    biFeat100 0 rfl rfl (by decide) (by decide) (by decide) (by decide)
    (by decide)).1.2.mpr (by decide)

/-- Chain address marked unlocked by consuming the given input, if any. -/
def markOf (inp : TxInput) : Option Address :=
  inp.chain.bind ChainId.toUnlockAddress

theorem getPos_setPos (m : List (Address × Nat)) (a x : Address) (v : Nat) :
    getPos (setPos m a v) x = if a = x then some v else getPos m x := by
  induction m with
  | nil => simp [setPos, getPos]
  | cons kv rest ih =>
    obtain ⟨k, w⟩ := kv
    by_cases hk : k = a
    · subst hk
      simp only [setPos, if_pos rfl, getPos]
      split_ifs <;> rfl
    · simp only [setPos, if_neg hk, getPos, ih]
      by_cases hkx : k = x
      · subst hkx
        rw [if_pos rfl, if_neg fun h => hk h.symm, if_pos rfl]
      · rw [if_neg hkx, if_neg hkx]

theorem getPos_addChain_nonchain (chain : Option ChainId) (i : Nat)
    (m : List (Address × Nat)) (x : Address) (hx : x.isChain = false) :
    getPos (addChainAsUnlocked chain i m) x = getPos m x := by
  cases chain with
  | none => rfl
  | some c =>
    cases c with
    | accountC id =>
      simp only [addChainAsUnlocked, ChainId.toUnlockAddress, getPos_setPos]
      rw [if_neg]
      intro h
      rw [← h] at hx
      exact Bool.noConfusion hx
    | nftC id =>
      simp only [addChainAsUnlocked, ChainId.toUnlockAddress, getPos_setPos]
      rw [if_neg]
      intro h
      rw [← h] at hx
      exact Bool.noConfusion hx
    | foundryC id => rfl

theorem getPos_addChain_cases (chain : Option ChainId) (i : Nat)
    (m : List (Address × Nat)) (a : Address) (p : Nat)
    (h : getPos (addChainAsUnlocked chain i m) a = some p) :
    chain.bind ChainId.toUnlockAddress = some a ∨ getPos m a = some p := by
  cases chain with
  | none => exact Or.inr h
  | some c =>
    cases c with
    | accountC id =>
      rw [addChainAsUnlocked] at h
      simp only [ChainId.toUnlockAddress] at h
      rw [getPos_setPos] at h
      by_cases hax : Address.accountAddr id = a
      · exact Or.inl (by simp [ChainId.toUnlockAddress, hax])
      · rw [if_neg hax] at h
        exact Or.inr h
    | nftC id =>
      rw [addChainAsUnlocked] at h
      simp only [ChainId.toUnlockAddress] at h
      rw [getPos_setPos] at h
      by_cases hax : Address.nftAddr id = a
      · exact Or.inl (by simp [ChainId.toUnlockAddress, hax])
      · rw [if_neg hax] at h
        exact Or.inr h
    | foundryC id => exact Or.inr h

theorem buildUnlocksGo_length (signer : Address → Option Nat) :
    ∀ (rest : List TxInput) (i : Nat) (m : List (Address × Nat)) (us : List Unlock),
      buildUnlocksGo signer rest i m = .ok us → us.length = rest.length := by
  intro rest
  induction rest with
  | nil =>
    intro i m us hok
    simp only [buildUnlocksGo] at hok
    cases hok
    rfl
  | cons inp rest2 ih =>
    intro i m us hok
    simp only [buildUnlocksGo] at hok
    rcases hpos : getPos m inp.unlockTarget with _ | pos
    · rw [hpos] at hok
      split_ifs at hok with hch
      rcases hsig : signer inp.unlockTarget with _ | s
      · rw [hsig] at hok
        exact Except.noConfusion hok
      · rw [hsig] at hok
        rcases hrec : buildUnlocksGo signer rest2 (i + 1)
            (setPos (addChainAsUnlocked inp.chain i m) inp.unlockTarget i) with e | us2
        · rw [hrec] at hok
          exact Except.noConfusion hok
        · rw [hrec] at hok
          cases hok
          simp [ih _ _ _ hrec]
    · rw [hpos] at hok
      rcases hrec : buildUnlocksGo signer rest2 (i + 1)
          (addChainAsUnlocked inp.chain i m) with e | us2
      · rw [hrec] at hok
        exact Except.noConfusion hok
      · rw [hrec] at hok
        cases hok
        simp [ih _ _ _ hrec]

theorem buildUnlocksGo_cons_inv (signer : Address → Option Nat) (inp0 : TxInput)
    (rest2 : List TxInput) (i : Nat) (m : List (Address × Nat)) (us : List Unlock)
    (hok : buildUnlocksGo signer (inp0 :: rest2) i m = .ok us) :
    (∃ pos us2, getPos m inp0.unlockTarget = some pos ∧
      buildUnlocksGo signer rest2 (i + 1) (addChainAsUnlocked inp0.chain i m) = .ok us2 ∧
      us = addReferentialUnlock inp0.unlockTarget pos :: us2) ∨
    (∃ s us2, getPos m inp0.unlockTarget = none ∧ inp0.unlockTarget.isChain = false ∧
      signer inp0.unlockTarget = some s ∧
      buildUnlocksGo signer rest2 (i + 1)
        (setPos (addChainAsUnlocked inp0.chain i m) inp0.unlockTarget i) = .ok us2 ∧
      us = Unlock.signature s :: us2) := by
  rcases hpos : getPos m inp0.unlockTarget with _ | pos
  · by_cases hch : inp0.unlockTarget.isChain = true
    · simp only [buildUnlocksGo, hpos, hch] at hok
      exact Except.noConfusion hok
    · rcases hsig : signer inp0.unlockTarget with _ | s
      · simp only [buildUnlocksGo, hpos, hch, hsig] at hok
        exact Except.noConfusion hok
      · rcases hrec : buildUnlocksGo signer rest2 (i + 1)
            (setPos (addChainAsUnlocked inp0.chain i m) inp0.unlockTarget i) with e | us2
        · simp only [buildUnlocksGo, hpos, hch, hsig, hrec] at hok
          exact Except.noConfusion hok
        · simp only [buildUnlocksGo, hpos, hch, hsig, hrec] at hok
          cases hok
          exact Or.inr ⟨s, us2, rfl, by simpa using hch, rfl, rfl, rfl⟩
  · rcases hrec : buildUnlocksGo signer rest2 (i + 1)
        (addChainAsUnlocked inp0.chain i m) with e | us2
    · simp only [buildUnlocksGo, hpos, hrec] at hok
      exact Except.noConfusion hok
    · simp only [buildUnlocksGo, hpos, hrec] at hok
      cases hok
      exact Or.inl ⟨pos, us2, rfl, rfl, rfl⟩

theorem buildUnlocksGo_ref_of_getPos (signer : Address → Option Nat) (a : Address)
    (ha : a.isChain = false) :
    ∀ (rest : List TxInput) (i : Nat) (m : List (Address × Nat)) (us : List Unlock)
      (p : Nat), buildUnlocksGo signer rest i m = .ok us → getPos m a = some p →
      ∀ (l : Nat) (inp : TxInput), rest[l]? = some inp → inp.unlockTarget = a →
        us[l]? = some (addReferentialUnlock a p) := by
  intro rest
  induction rest with
  | nil =>
    intro i m us p _ _ l inp hl
    simp at hl
  | cons inp0 rest2 ih =>
    intro i m us p hok hget l inp hl hta
    rcases buildUnlocksGo_cons_inv signer inp0 rest2 i m us hok with
      ⟨pos, us2, hpos, hrec, hus⟩ | ⟨s, us2, hpos, hch, hsig, hrec, hus⟩
    · subst hus
      cases l with
      | zero =>
        simp only [List.getElem?_cons_zero, Option.some_inj] at hl
        subst hl
        rw [hta] at hpos
        rw [hget] at hpos
        cases hpos
        rw [hta]
        simp
      | succ l2 =>
        simp only [List.getElem?_cons_succ] at hl ⊢
        have hget2 : getPos (addChainAsUnlocked inp0.chain i m) a = some p := by
          rw [getPos_addChain_nonchain _ _ _ _ ha]
          exact hget
        exact ih (i + 1) _ us2 p hrec hget2 l2 inp hl hta
    · subst hus
      cases l with
      | zero =>
        simp only [List.getElem?_cons_zero, Option.some_inj] at hl
        subst hl
        rw [hta] at hpos
        rw [hget] at hpos
        exact Option.noConfusion hpos
      | succ l2 =>
        simp only [List.getElem?_cons_succ] at hl ⊢
        have hne : inp0.unlockTarget ≠ a := by
          intro he
          rw [he, hget] at hpos
          exact Option.noConfusion hpos
        have hget2 : getPos (setPos (addChainAsUnlocked inp0.chain i m)
            inp0.unlockTarget i) a = some p := by
          rw [getPos_setPos]
          rw [if_neg hne, getPos_addChain_nonchain _ _ _ _ ha]
          exact hget
        exact ih (i + 1) _ us2 p hrec hget2 l2 inp hl hta

theorem buildUnlocksGo_first_sig (signer : Address → Option Nat) (a : Address)
    (ha : a.isChain = false) :
    ∀ (rest : List TxInput) (i : Nat) (m : List (Address × Nat)) (us : List Unlock)
      (j : Nat) (inp : TxInput),
      buildUnlocksGo signer rest i m = .ok us → getPos m a = none →
      rest[j]? = some inp → inp.unlockTarget = a →
      (∀ (k : Nat) (inp2 : TxInput), k < j → rest[k]? = some inp2 →
        inp2.unlockTarget ≠ a) →
      (∃ s, signer a = some s ∧ us[j]? = some (.signature s)) ∧
      (∀ (l : Nat) (inp2 : TxInput), j < l → rest[l]? = some inp2 →
        inp2.unlockTarget = a → us[l]? = some (addReferentialUnlock a (i + j))) := by
  intro rest
  induction rest with
  | nil =>
    intro i m us j inp _ _ hj
    simp at hj
  | cons inp0 rest2 ih =>
    intro i m us j inp hok hget hj hta hfirst
    rcases buildUnlocksGo_cons_inv signer inp0 rest2 i m us hok with
      ⟨pos, us2, hpos, hrec, hus⟩ | ⟨s, us2, hpos, hch, hsig, hrec, hus⟩
    · subst hus
      cases j with
      | zero =>
        simp only [List.getElem?_cons_zero, Option.some_inj] at hj
        subst hj
        rw [hta, hget] at hpos
        exact Option.noConfusion hpos
      | succ j2 =>
        have hne0 : inp0.unlockTarget ≠ a :=
          hfirst 0 inp0 (Nat.succ_pos j2) List.getElem?_cons_zero
        have hget2 : getPos (addChainAsUnlocked inp0.chain i m) a = none := by
          rw [getPos_addChain_nonchain _ _ _ _ ha]
          exact hget
        simp only [List.getElem?_cons_succ] at hj
        have hfirst2 : ∀ (k : Nat) (inp2 : TxInput), k < j2 → rest2[k]? = some inp2 →
            inp2.unlockTarget ≠ a := by
          intro k inp2 hk hk2
          exact hfirst (k + 1) inp2 (Nat.succ_lt_succ hk)
            (by simpa [List.getElem?_cons_succ] using hk2)
        obtain ⟨hsigpart, hrefpart⟩ :=
          ih (i + 1) _ us2 j2 inp hrec hget2 hj hta hfirst2
        constructor
        · obtain ⟨s, hs, hus2⟩ := hsigpart
          exact ⟨s, hs, by simpa [List.getElem?_cons_succ] using hus2⟩
        · intro l inp2 hl hl2 hta2
          cases l with
          | zero => exact absurd hl (Nat.not_lt_zero _)
          | succ l2 =>
            simp only [List.getElem?_cons_succ] at hl2 ⊢
            have := hrefpart l2 inp2 (Nat.lt_of_succ_lt_succ hl) hl2 hta2
            rw [this]
            have harith : i + 1 + j2 = i + (j2 + 1) := by omega
            rw [harith]
    · subst hus
      cases j with
      | zero =>
        simp only [List.getElem?_cons_zero, Option.some_inj] at hj
        subst hj
        rw [hta] at hsig
        constructor
        · exact ⟨s, hsig, by simp⟩
        · intro l inp2 hl hl2 hta2
          cases l with
          | zero => exact absurd hl (Nat.lt_irrefl 0)
          | succ l2 =>
            simp only [List.getElem?_cons_succ] at hl2 ⊢
            have hget2 : getPos (setPos (addChainAsUnlocked inp0.chain i m)
                inp0.unlockTarget i) a = some i := by
              rw [getPos_setPos, hta, if_pos rfl]
            have := buildUnlocksGo_ref_of_getPos signer a ha rest2 (i + 1) _ us2 i
              hrec hget2 l2 inp2 hl2 hta2
            rw [this, Nat.add_zero]
      | succ j2 =>
        have hne0 : inp0.unlockTarget ≠ a :=
          hfirst 0 inp0 (Nat.succ_pos j2) List.getElem?_cons_zero
        have hget2 : getPos (setPos (addChainAsUnlocked inp0.chain i m)
            inp0.unlockTarget i) a = none := by
          rw [getPos_setPos, if_neg hne0, getPos_addChain_nonchain _ _ _ _ ha]
          exact hget
        simp only [List.getElem?_cons_succ] at hj
        have hfirst2 : ∀ (k : Nat) (inp2 : TxInput), k < j2 → rest2[k]? = some inp2 →
            inp2.unlockTarget ≠ a := by
          intro k inp2 hk hk2
          exact hfirst (k + 1) inp2 (Nat.succ_lt_succ hk)
            (by simpa [List.getElem?_cons_succ] using hk2)
        obtain ⟨hsigpart, hrefpart⟩ :=
          ih (i + 1) _ us2 j2 inp hrec hget2 hj hta hfirst2
        constructor
        · obtain ⟨s2, hs2, hus2⟩ := hsigpart
          exact ⟨s2, hs2, by simpa [List.getElem?_cons_succ] using hus2⟩
        · intro l inp2 hl hl2 hta2
          cases l with
          | zero => exact absurd hl (Nat.not_lt_zero _)
          | succ l2 =>
            simp only [List.getElem?_cons_succ] at hl2 ⊢
            have := hrefpart l2 inp2 (Nat.lt_of_succ_lt_succ hl) hl2 hta2
            rw [this]
            have harith : i + 1 + j2 = i + (j2 + 1) := by omega
            rw [harith]

theorem buildUnlocksGo_chainRefKind (signer : Address → Option Nat) :
    ∀ (rest : List TxInput) (i : Nat) (m : List (Address × Nat)) (us : List Unlock),
      buildUnlocksGo signer rest i m = .ok us →
      ∀ (j : Nat) (inp : TxInput), rest[j]? = some inp →
        (∀ x, inp.unlockTarget = .accountAddr x → ∃ p, us[j]? = some (.accountRef p)) ∧
        (∀ x, inp.unlockTarget = .nftAddr x → ∃ p, us[j]? = some (.nftRef p)) := by
  intro rest
  induction rest with
  | nil =>
    intro i m us _ j inp hj
    simp at hj
  | cons inp0 rest2 ih =>
    intro i m us hok j inp hj
    rcases buildUnlocksGo_cons_inv signer inp0 rest2 i m us hok with
      ⟨pos, us2, hpos, hrec, hus⟩ | ⟨s, us2, hpos, hch, hsig, hrec, hus⟩
    · subst hus
      cases j with
      | zero =>
        simp only [List.getElem?_cons_zero, Option.some_inj] at hj
        subst hj
        constructor
        · intro x hx
          rw [hx]
          exact ⟨pos % 2 ^ 16, by simp [addReferentialUnlock]⟩
        · intro x hx
          rw [hx]
          exact ⟨pos % 2 ^ 16, by simp [addReferentialUnlock]⟩
      | succ j2 =>
        simp only [List.getElem?_cons_succ] at hj ⊢
        exact ih (i + 1) _ us2 hrec j2 inp hj
    · subst hus
      cases j with
      | zero =>
        simp only [List.getElem?_cons_zero, Option.some_inj] at hj
        subst hj
        constructor
        · intro x hx
          rw [hx] at hch
          exact Bool.noConfusion hch
        · intro x hx
          rw [hx] at hch
          exact Bool.noConfusion hch
      | succ j2 =>
        simp only [List.getElem?_cons_succ] at hj ⊢
        exact ih (i + 1) _ us2 hrec j2 inp hj

theorem buildUnlocksGo_chain_premarked (signer : Address → Option Nat) :
    ∀ (rest : List TxInput) (i : Nat) (m : List (Address × Nat)) (us : List Unlock)
      (P : Address → Prop),
      buildUnlocksGo signer rest i m = .ok us →
      (∀ a p, getPos m a = some p → a.isChain = true → P a) →
      ∀ (j : Nat) (inp : TxInput), rest[j]? = some inp →
        inp.unlockTarget.isChain = true →
        P inp.unlockTarget ∨
        ∃ (k : Nat) (inp2 : TxInput), k < j ∧ rest[k]? = some inp2 ∧
          markOf inp2 = some inp.unlockTarget := by
  intro rest
  induction rest with
  | nil =>
    intro i m us P _ _ j inp hj
    simp at hj
  | cons inp0 rest2 ih =>
    intro i m us P hok hmarked j inp hj hchain
    rcases buildUnlocksGo_cons_inv signer inp0 rest2 i m us hok with
      ⟨pos, us2, hpos, hrec, hus⟩ | ⟨s, us2, hpos, hch, hsig, hrec, hus⟩
    · cases j with
      | zero =>
        simp only [List.getElem?_cons_zero, Option.some_inj] at hj
        subst hj
        exact Or.inl (hmarked inp0.unlockTarget pos hpos hchain)
      | succ j2 =>
        simp only [List.getElem?_cons_succ] at hj
        have hmarked2 : ∀ a p, getPos (addChainAsUnlocked inp0.chain i m) a = some p →
            a.isChain = true → P a ∨ markOf inp0 = some a := by
          intro a p hp hac
          rcases getPos_addChain_cases inp0.chain i m a p hp with hm | hm
          · exact Or.inr hm
          · exact Or.inl (hmarked a p hm hac)
        rcases ih (i + 1) _ us2 (fun a => P a ∨ markOf inp0 = some a) hrec hmarked2
            j2 inp hj hchain with hP | ⟨k, inp2, hk, hk2, hkm⟩
        · rcases hP with hP | hP
          · exact Or.inl hP
          · exact Or.inr ⟨0, inp0, Nat.succ_pos j2, List.getElem?_cons_zero, hP⟩
        · exact Or.inr ⟨k + 1, inp2, Nat.succ_lt_succ hk,
            by simpa [List.getElem?_cons_succ] using hk2, hkm⟩
    · cases j with
      | zero =>
        simp only [List.getElem?_cons_zero, Option.some_inj] at hj
        subst hj
        rw [hchain] at hch
        exact Bool.noConfusion hch
      | succ j2 =>
        simp only [List.getElem?_cons_succ] at hj
        have hmarked2 : ∀ a p, getPos (setPos (addChainAsUnlocked inp0.chain i m)
            inp0.unlockTarget i) a = some p → a.isChain = true →
            P a ∨ markOf inp0 = some a := by
          intro a p hp hac
          rw [getPos_setPos] at hp
          have hne : inp0.unlockTarget ≠ a := by
            intro he
            rw [he] at hch
            rw [hac] at hch
            exact Bool.noConfusion hch
          rw [if_neg hne] at hp
          rcases getPos_addChain_cases inp0.chain i m a p hp with hm | hm
          · exact Or.inr hm
          · exact Or.inl (hmarked a p hm hac)
        rcases ih (i + 1) _ us2 (fun a => P a ∨ markOf inp0 = some a) hrec hmarked2
            j2 inp hj hchain with hP | ⟨k, inp2, hk, hk2, hkm⟩
        · rcases hP with hP | hP
          · exact Or.inl hP
          · exact Or.inr ⟨0, inp0, Nat.succ_pos j2, List.getElem?_cons_zero, hP⟩
        · exact Or.inr ⟨k + 1, inp2, Nat.succ_lt_succ hk,
            by simpa [List.getElem?_cons_succ] using hk2, hkm⟩

/-- Two inputs owned by the same plain (non-chain) address. -/
def twoSameInputs : List TxInput :=
  [{ unlockTarget := .ed25519 3, chain := none },
   { unlockTarget := .ed25519 3, chain := none }]

/-- Signer producing the constant signature 9. -/
def signer9 : Address → Option Nat := fun _ => some 9

/-- C8: on every successful Build, unlocks are assigned in essence-input order:
one unlock per input; an input whose non-chain address has not occurred before
gets a fresh signature unlock; every later input with the same non-chain
address gets a ReferenceUnlock pointing at the position of the first
occurrence; an input owned by an account (resp. NFT) address gets an
AccountUnlock (resp. NFTUnlock); a chain-address input can only succeed when
some earlier consumed input marked that chain address unlocked; and for the
concrete two inputs owned by one plain address the produced unlocks are a
signature unlock followed by a reference unlock pointing at index 0. -/
theorem build_unlockAssignment (signer : Address → Option Nat)
    (inputs : List TxInput) (us : List Unlock)
    (hok : build none true true signer inputs = .ok us) :
    us.length = inputs.length ∧
    (∀ (j : Nat) (inp : TxInput), inputs[j]? = some inp →
      inp.unlockTarget.isChain = false →
      (∀ (k : Nat) (inp2 : TxInput), k < j → inputs[k]? = some inp2 →
        inp2.unlockTarget ≠ inp.unlockTarget) →
      ∃ s, signer inp.unlockTarget = some s ∧ us[j]? = some (.signature s)) ∧
    (∀ (j l : Nat) (inpj inpl : TxInput), inputs[j]? = some inpj →
      inputs[l]? = some inpl → inpj.unlockTarget = inpl.unlockTarget →
      inpl.unlockTarget.isChain = false →
      (∀ (k : Nat) (inp2 : TxInput), k < j → inputs[k]? = some inp2 →
        inp2.unlockTarget ≠ inpl.unlockTarget) →
      j < l → us[l]? = some (.reference (j % 2 ^ 16))) ∧
    (∀ (j : Nat) (inp : TxInput), inputs[j]? = some inp →
      (∀ x, inp.unlockTarget = .accountAddr x → ∃ p, us[j]? = some (.accountRef p)) ∧
      (∀ x, inp.unlockTarget = .nftAddr x → ∃ p, us[j]? = some (.nftRef p))) ∧
    (∀ (j : Nat) (inp : TxInput), inputs[j]? = some inp →
      inp.unlockTarget.isChain = true →
      ∃ (k : Nat) (inp2 : TxInput), k < j ∧ inputs[k]? = some inp2 ∧
        markOf inp2 = some inp.unlockTarget) ∧
    build none true true signer9 twoSameInputs =
      .ok [Unlock.signature 9, Unlock.reference 0] := by
  have hok2 : buildUnlocksGo signer inputs 0 [] = .ok us := by
    simpa [build] using hok
  have hempty : ∀ a : Address, getPos [] a = none := fun _ => rfl
  refine ⟨buildUnlocksGo_length signer inputs 0 [] us hok2, ?_, ?_, ?_, ?_, rfl⟩
  · intro j inp hj hnc hfirst
    exact (buildUnlocksGo_first_sig signer inp.unlockTarget hnc inputs 0 [] us j inp
      hok2 (hempty _) hj rfl hfirst).1
  · intro j l inpj inpl hj hl heq hnc hfirst hjl
    have hres := (buildUnlocksGo_first_sig signer inpl.unlockTarget hnc inputs 0 [] us
      j inpj hok2 (hempty _) hj heq hfirst).2 l inpl hjl hl rfl
    rw [Nat.zero_add] at hres
    cases hadr : inpl.unlockTarget with
    | ed25519 k =>
      rw [hadr] at hres
      simpa [addReferentialUnlock] using hres
    | accountAddr x =>
      rw [hadr] at hnc
      exact Bool.noConfusion hnc
    | nftAddr x =>
      rw [hadr] at hnc
      exact Bool.noConfusion hnc
  · intro j inp hj
    exact buildUnlocksGo_chainRefKind signer inputs 0 [] us hok2 j inp hj
  · intro j inp hj hchain
    rcases buildUnlocksGo_chain_premarked signer inputs 0 [] us (fun _ => False) hok2
        (fun a p hp _ => Option.noConfusion ((hempty a).symm.trans hp)) j inp hj hchain
      with hF | hex
    · exact hF.elim
    · exact hex

/-- Witness for C8: applying the theorem to the concrete two-input build. -/
theorem build_unlockAssignment_witness :
    ([Unlock.signature 9, Unlock.reference 0] : List Unlock).length =
      twoSameInputs.length ∧
    ∃ s, signer9 (Address.ed25519 3) = some s ∧
      ([Unlock.signature 9, Unlock.reference 0] : List Unlock)[0]? =
        some (Unlock.signature s) := by
  have h := build_unlockAssignment signer9 twoSameInputs
    [Unlock.signature 9, Unlock.reference 0] rfl
  refine ⟨h.1, ?_⟩
  have h2 := h.2.1 0 { unlockTarget := .ed25519 3, chain := none } rfl rfl ?_
  · exact h2
  · intro k inp2 hk _
    exact absurd hk (Nat.not_lt_zero k)

end IotaGo
